import Mathlib

/-!
A shallow embedding of the workflow engine of this repository
(`app/lib/workflow/WorkflowManager.ts`, `app/lib/workflow/types.ts`,
`app/lib/workflow/WorkflowStorageService.ts`, and the `escapeXml` helper shared
by `FileAgent`/`CodeAgent`), together with proofs about it.

Modelling conventions:
* JS `Date` values are modelled by an abstract clock (`Sys.time`): every
  `new Date()` call returns the current tick and advances the clock.
  `generateId` is modelled by a counter (`Sys.ids`).
* Agents and the `ActionRunner` are external collaborators; they are modelled
  as function-valued fields of `Env` (an agent may throw or return a result,
  mirroring `Agent.execute`; the runner reports the executed action's final
  status, mirroring `actionRunner.actions.get()[actionId].status`).
* `save` calls in the engine are fire-and-forget (`.catch` logs only) and the
  in-memory state never reads the store back mid-run, so the engine functions
  do not thread the store.  The store itself is modelled separately for the
  persistence claims (`saveWf`/`loadWf`), with `JSON.stringify`/`JSON.parse`
  modelled as the identity on the structured value except for `Date` fields,
  which serialize to text (`TSVal.str`) exactly as in JSON.
* `currentTaskIndex` is a JS number that can be `-1` (see `processTurn`), so
  it is modelled as `Int`; reading `tasks[i]` for an out-of-range `i` yields
  `undefined` and the subsequent `task.status` access throws: this is the
  `crashed` flag of `LoopOut`.
* The planning tasks produced by `PlanningAgent` carry no `output` field, so
  `AgentOutput.plannedTasks` holds `TaskBase` values (a `Task` without
  `output`), avoiding type-level recursion; `Task.toTask` is the inclusion.
  For the same reason the `existingTasks` array inside the replanning meta
  task's input is represented by the task ids.
* JS string regex/`replace` behaviour is reproduced exactly on `List Char`:
  leftmost matching, greedy `[^"]+`, lazy `((?:.|\r|\n)*?)` with its
  lookahead, and non-overlapping global replacement without rescanning.
-/

namespace BoltWf

/-! ## JS-string primitives -/

/-- Boolean list prefix test, mirroring literal regex matching. -/
def startsWith : List Char → List Char → Bool
  | [], _ => true
  | _ :: _, [] => false
  | p :: ps, c :: cs => p == c && startsWith ps cs

/-- Boolean substring test. -/
def hasSub (pat : List Char) : List Char → Bool
  | [] => startsWith pat []
  | s@(_ :: r) => startsWith pat s || hasSub pat r

/-- Worker for `replaceL`: `skip` counts characters of an already-matched
occurrence still to be consumed (they are not copied and not rescanned). -/
def replaceSkip (pat rep : List Char) : Nat → List Char → List Char
  | _, [] => []
  | Nat.succ skip, _ :: r => replaceSkip pat rep skip r
  | 0, c :: r =>
    if startsWith pat (c :: r) then rep ++ replaceSkip pat rep (pat.length - 1) r
    else c :: replaceSkip pat rep 0 r

/-- JS `String.prototype.replace` with a global literal pattern:
leftmost, non-overlapping, the replacement is not rescanned. -/
def replaceL (pat rep s : List Char) : List Char :=
  replaceSkip pat rep 0 s

/-- JS `x || d` for an optional string `x` (both `undefined` and `""` are
falsy). -/
def jsOr (o : Option String) (d : String) : String :=
  match o with
  | none => d
  | some s => if s = "" then d else s

/-- JS truthiness of an optional string. -/
def jsTruthyStr (o : Option String) : Bool :=
  match o with
  | none => false
  | some s => !(s == "")

/-- JS template interpolation of a possibly-`undefined` string. -/
def jsInterp (o : Option String) : String := o.getD "undefined"

/-! ## Entity escaping (`FileAgent.escapeXml` / `CodeAgent.escapeXml`) -/

/-- Per-character replacement of `str.replace(/[<>&"']/g, ...)`. -/
def escXmlChar (c : Char) : List Char :=
  if c = '<' then "&lt;".toList
  else if c = '>' then "&gt;".toList
  else if c = '&' then "&amp;".toList
  else if c = '"' then "&quot;".toList
  else if c = '\x27' then "&apos;".toList
  else [c]

/-- Character-wise expansion (a global single-character-class replace). -/
def emap (f : Char → List Char) : List Char → List Char
  | [] => []
  | c :: r => f c ++ emap f r

/-- `escapeXml` of `FileAgent`/`CodeAgent`. -/
def escapeXml (s : String) : String := ⟨emap escXmlChar s.data⟩

def entLt : List Char := "&lt;".toList
def entGt : List Char := "&gt;".toList
def entAmp : List Char := "&amp;".toList
def entQuot : List Char := "&quot;".toList
def entApos : List Char := "&apos;".toList

/-- The five chained `.replace` calls of `parseBoltActionString`, in source
order: `&lt;`, `&gt;`, `&amp;`, `&quot;`, `&apos;`. -/
def unescapeEntities (l : List Char) : List Char :=
  replaceL entApos "\x27".toList
    (replaceL entQuot "\"".toList
      (replaceL entAmp "&".toList
        (replaceL entGt ">".toList
          (replaceL entLt "<".toList l))))

/-- Intermediate per-character encodings describing the string after each of
the five unescape passes has run over an `escapeXml` image: after the `&lt;`
pass `<` is literal again, and so on. -/
def enc1 (c : Char) : List Char := if c = '<' then [c] else escXmlChar c

def enc2 (c : Char) : List Char := if c = '<' ∨ c = '>' then [c] else escXmlChar c

def enc3 (c : Char) : List Char :=
  if c = '"' then entQuot else if c = '\x27' then entApos else [c]

def enc4 (c : Char) : List Char := if c = '\x27' then entApos else [c]

/-! ## The action-directive regexes of `parseBoltActionString` -/

/-- Leftmost match of `attr="([^"]+)"`: at each start offset the greedy
non-quote run must be non-empty and closed by a quote, else the engine moves
one character right. -/
def scanAttr (pat : List Char) : List Char → Option (List Char)
  | [] => none
  | c :: r =>
    if startsWith pat (c :: r) then
      let rest := r.drop (pat.length - 1)
      let run := rest.takeWhile (fun x => x != '"')
      match rest.drop run.length, run with
      | '"' :: _, _ :: _ => some run
      | _, _ => scanAttr pat r
    else scanAttr pat r

/-- The lookahead `(?:\s|>|$)` after the closing quote of the `content`
attribute (`\s` restricted to the ASCII whitespace JS matches). -/
def lookaheadOk : List Char → Bool
  | [] => true
  | c :: _ =>
    c == '>' || c == ' ' || c == '\t' || c == '\n' || c == '\r' ||
    c == '\x0b' || c == '\x0c'

/-- Lazy capture of `((?:.|\r|\n)*?)"(?:\s|>|$)`: the shortest prefix that is
followed by a quote whose successor satisfies the lookahead. -/
def lazyCap : List Char → Option (List Char)
  | [] => none
  | c :: r =>
    if c == '"' && lookaheadOk r then some []
    else (lazyCap r).map (fun cap => c :: cap)

/-- Leftmost match of `content="((?:.|\r|\n)*?)"(?:\s|>|$)`. -/
def scanContent (pat : List Char) : List Char → Option (List Char)
  | [] => none
  | c :: r =>
    if startsWith pat (c :: r) then
      match lazyCap (r.drop (pat.length - 1)) with
      | some cap => some cap
      | none => scanContent pat r
    else scanContent pat r

/-! ## Data model (`app/lib/workflow/types.ts`) -/

/-- One message of `sharedContext.conversationHistory`. -/
structure Msg where
  role : String
  content : String
deriving DecidableEq

/-- `AgentInput` (`Record<string, any>`): the shapes actually constructed by
the engine, plus an opaque catch-all.  The `existingTasks` array of the
replanning meta task is represented by the ids of those tasks (see the module
comment). -/
inductive AgentInput where
  | requestOf (request : String)
  | turnPlanning (conversationHistory : List Msg) (existingTaskIds : List String)
  | custom (data : List (String × String))
deriving DecidableEq

inductive TaskStatus where
  | pending
  | running
  | completed
  | failed
deriving DecidableEq

/-- A planned task before execution: every `Task` field except `output`. -/
structure TaskBase where
  id : String
  agentName : String
  input : AgentInput
  status : TaskStatus
  createdAt : Nat
  updatedAt : Nat
  startedAt : Option Nat
  completedAt : Option Nat
  error : Option String
  dependencies : List String
deriving DecidableEq

/-- `sharedContext`: the engine-relevant `conversationHistory` key plus the
remaining open key/value bag (values modelled as strings). -/
structure SharedCtx where
  conversationHistory : Option (List Msg)
  data : List (String × String)
deriving DecidableEq

/-- A `sharedContextUpdates` object: `none` marks an absent key. -/
structure CtxUpdates where
  conversationHistory : Option (List Msg)
  data : List (String × String)
deriving DecidableEq

inductive AOStatus where
  | success
  | failure
deriving DecidableEq

/-- `AgentOutput` of `types.ts` (without the arbitrary extra properties,
which the engine never reads). -/
structure AgentOutput where
  status : AOStatus
  error : Option String
  actionString : Option String
  sharedContextUpdates : Option CtxUpdates
  plannedTasks : Option (List TaskBase)
deriving DecidableEq

/-- `Task` of `types.ts`. -/
structure Task where
  id : String
  agentName : String
  input : AgentInput
  status : TaskStatus
  createdAt : Nat
  updatedAt : Nat
  startedAt : Option Nat
  completedAt : Option Nat
  error : Option String
  dependencies : List String
  output : Option AgentOutput
deriving DecidableEq

/-- The inclusion of a planned task into the stored task list
(planned tasks carry no `output`). -/
def TaskBase.toTask (t : TaskBase) : Task :=
  ⟨t.id, t.agentName, t.input, t.status, t.createdAt, t.updatedAt, t.startedAt,
    t.completedAt, t.error, t.dependencies, none⟩

inductive WfStatus where
  | pending
  | running
  | processing_turn
  | planning
  | completed
  | failed
  | paused
deriving DecidableEq

/-- `WorkflowState` of `types.ts` (plus the dynamically-assigned `error`
field that `processTurn` writes). -/
structure WorkflowState where
  workflowId : String
  originalUserInput : String
  tasks : List Task
  currentTaskIndex : Int
  sharedContext : SharedCtx
  status : WfStatus
  error : Option String
deriving DecidableEq

/-- Shallow spread-merge of an updates object into `sharedContext`
(`{ ...old, ...updates }`): keys of the update win; key order follows JS
object spread (existing keys keep their position, new keys are appended). -/
def mergeData (a b : List (String × String)) : List (String × String) :=
  a.map (fun kv =>
    match b.find? (fun kv2 => kv2.1 == kv.1) with
    | some kv2 => (kv.1, kv2.2)
    | none => kv) ++
  b.filter (fun kv2 => !(a.any (fun kv => kv.1 == kv2.1)))

def mergeCtx (s : SharedCtx) (u : CtxUpdates) : SharedCtx :=
  ⟨match u.conversationHistory with
   | some h => some h
   | none => s.conversationHistory,
   mergeData s.data u.data⟩

/-! ## System effects: `new Date()` and `generateId` -/

/-- Abstract clock and id counter.  `tick` models `new Date()` (returns the
current instant, time moves forward); `genId` models `generateId`. -/
structure Sys where
  time : Nat
  ids : Nat
deriving DecidableEq

def Sys.tick (s : Sys) : Nat × Sys := (s.time, ⟨s.time + 1, s.ids⟩)

def Sys.genId (pre : String) (s : Sys) : String × Sys :=
  (pre ++ Nat.repr s.ids, ⟨s.time, s.ids + 1⟩)

/-! ## External collaborators -/

/-- Either outcome of `await agent.execute(task, workflowState)`:
an exception (with its `.message`, possibly absent) or a returned
`AgentOutput`. -/
inductive AgentResult where
  | thrown (msg : Option String)
  | returned (out : AgentOutput)

/-- The structured action produced by `parseBoltActionString`. -/
inductive ParsedAction where
  | file (filePath : String) (content : String)
  | shell (content : String)
deriving DecidableEq

/-- `ActionCallbackData` handed to the `ActionRunner`. -/
structure ActionCallbackData where
  actionId : String
  action : ParsedAction
deriving DecidableEq

/-- Final status of the executed action as read back from
`actionRunner.actions.get()[actionId]`: `complete`, `failed` (with its
optional `error`), or any other status text (including `undefined`). -/
inductive ActionRunStatus where
  | complete
  | failed (err : Option String)
  | other (statusText : String)

/-- The engine's environment: the agent registry (`agents.get`) and the
optional `ActionRunner`. -/
structure Env where
  agents : String → Option (Task → WorkflowState → AgentResult)
  actionRunner : Option (ActionCallbackData → ActionRunStatus)

/-! ## `parseBoltActionString` (WorkflowManager lines 531-578) -/

/-- `<boltAction type="file" filePath="..." content="...">` as built by
`FileAgent.execute` for a create/append operation (line 226): the content is
entity-escaped, the file path is inserted as-is. -/
def fileAgentActionString (filePath content : String) : String :=
  "<boltAction type=\"file\" filePath=\"" ++ filePath ++ "\" content=\"" ++
    escapeXml content ++ "\"></boltAction>"

/-- `parseBoltActionString(actionString, taskId)`.  The action id is
generated after the type attribute parses, as in the source. -/
def parseBoltActionString (actionString taskId : String) (sys : Sys) :
    Option ActionCallbackData × Sys :=
  match scanAttr "type=\"".toList actionString.data with
  | none => (none, sys)
  | some ty =>
    let pid := sys.genId "act_"
    let actionId := taskId ++ "_action_" ++ pid.1
    if ty = "file".toList then
      match scanAttr "filePath=\"".toList actionString.data,
            scanContent "content=\"".toList actionString.data with
      | some fp, some ct =>
        (some ⟨actionId, ParsedAction.file ⟨fp⟩ ⟨unescapeEntities ct⟩⟩, pid.2)
      | _, _ => (none, pid.2)
    else if ty = "shell".toList then
      match scanContent "content=\"".toList actionString.data with
      | some ct => (some ⟨actionId, ParsedAction.shell ⟨unescapeEntities ct⟩⟩, pid.2)
      | none => (none, pid.2)
    else (none, pid.2)

/-! ## The execution loop (WorkflowManager lines 209-393) -/

/-- `tasks[i]` for a JS index: `undefined` when out of range. -/
def getI {α : Type} (l : List α) (i : Int) : Option α :=
  if 0 ≤ i then l.get? i.toNat else none

/-- In-place mutation of `tasks[i]` (callers establish `0 ≤ i`). -/
def WorkflowState.setTask (s : WorkflowState) (i : Int) (t : Task) : WorkflowState :=
  { s with tasks := s.tasks.set i.toNat t }

/-- Outcome of processing one task: `stopped` is a `break` out of the loop,
`called` records whether `agent.execute` was invoked. -/
structure StepRes where
  stopped : Bool
  state : WorkflowState
  sys : Sys
  called : Bool

/-- Lines 331-332, 346, 352-355: stamp `completedAt`/`updatedAt`, advance
`currentTaskIndex` past the current index, then break if the workflow status
became `failed`. -/
def completeAdvance (i : Int) (s : WorkflowState) (task3 : Task) (sys : Sys) : StepRes :=
  let pC := sys.tick
  let pU := pC.2.tick
  let task4 : Task := { task3 with completedAt := some pC.1, updatedAt := pU.1 }
  let s4 : WorkflowState := { s.setTask i task4 with currentTaskIndex := i + 1 }
  ⟨s4.status == WfStatus.failed, s4, pU.2, true⟩

/-- The body of one loop iteration for a non-terminal `task = tasks[i]`
(lines 236-355). -/
def processTask (env : Env) (i : Int) (task : Task) (s : WorkflowState) (sys : Sys) :
    StepRes :=
  -- lines 238-240: running, startedAt only if unset, updatedAt
  let pS : Option Nat × Sys :=
    match task.startedAt with
    | some d => (some d, sys)
    | none => ((sys.tick).1, (sys.tick).2)
  let pU := pS.2.tick
  let task1 : Task := { task with status := TaskStatus.running, startedAt := pS.1, updatedAt := pU.1 }
  let s1 := s.setTask i task1
  match env.agents task1.agentName with
  | none =>
    -- lines 244-254: agent not found
    let q1 := pU.2.tick
    let q2 := q1.2.tick
    let task2 : Task := { task1 with
      status := TaskStatus.failed
      error := some ("Agent not found: " ++ task1.agentName)
      completedAt := some q1.1
      updatedAt := q2.1 }
    ⟨true, { s1.setTask i task2 with status := WfStatus.failed }, q2.2, false⟩
  | some behave =>
    match behave task1 s1 with
    | AgentResult.thrown msg =>
      -- lines 334-343: the catch block
      let q1 := pU.2.tick
      let q2 := q1.2.tick
      let task2 : Task := { task1 with
        status := TaskStatus.failed
        error := some (jsOr msg ("Agent " ++ task1.agentName ++
          " execution threw an unhandled error."))
        completedAt := some q1.1
        updatedAt := q2.1 }
      ⟨true, { s1.setTask i task2 with status := WfStatus.failed }, q2.2, true⟩
    | AgentResult.returned out =>
      -- lines 259-268: record output, merge shared-context updates
      let q1 := pU.2.tick
      let task2 : Task := { task1 with output := some out, updatedAt := q1.1 }
      let s2 := s1.setTask i task2
      let ctx3 := match out.sharedContextUpdates with
                  | some u => mergeCtx s2.sharedContext u
                  | none => s2.sharedContext
      let s3 := { s2 with sharedContext := ctx3 }
      if out.status = AOStatus.failure then
        -- lines 270-279
        let task3 : Task := { task2 with
          status := TaskStatus.failed
          error := some (jsOr out.error ("Agent " ++ task1.agentName ++ " reported failure.")) }
        ⟨true, { s3.setTask i task3 with status := WfStatus.failed }, q1.2, true⟩
      else if jsTruthyStr out.actionString then
        match env.actionRunner with
        | some runner =>
          -- lines 281-318
          match parseBoltActionString (out.actionString.getD "") task2.id q1.2 with
          | (some acd, sys2) =>
            match runner acd with
            | ActionRunStatus.complete =>
              completeAdvance i s3 { task2 with status := TaskStatus.completed } sys2
            | ActionRunStatus.failed aerr =>
              let task3 : Task := { task2 with
                status := TaskStatus.failed
                error := some (jsOr aerr "ActionRunner failed to execute action.") }
              ⟨true, { s3.setTask i task3 with status := WfStatus.failed }, sys2, true⟩
            | ActionRunStatus.other st =>
              let task3 : Task := { task2 with
                status := TaskStatus.failed
                error := some ("Action did not complete as expected: " ++ st) }
              ⟨true, { s3.setTask i task3 with status := WfStatus.failed }, sys2, true⟩
          | (none, sys2) =>
            let task3 : Task := { task2 with
              status := TaskStatus.failed
              error := some "Failed to parse actionString from agent." }
            ⟨true, { s3.setTask i task3 with status := WfStatus.failed }, sys2, true⟩
        | none =>
          -- lines 319-326
          let task3 : Task := { task2 with
            status := TaskStatus.failed
            error := some ("Agent " ++ task1.agentName ++
              " produced an actionString but ActionRunner is not available.") }
          ⟨true, { s3.setTask i task3 with status := WfStatus.failed }, q1.2, true⟩
      else
        -- lines 327-330: completed directly
        completeAdvance i s3 { task2 with status := TaskStatus.completed } q1.2

/-- Result of an `executeWorkflow` call.  `calls` lists the loop indices for
which `agent.execute` was invoked; `crashed` marks the TypeError thrown by
`task.status` when `tasks[i]` is `undefined` (negative index). -/
structure LoopOut where
  state : WorkflowState
  sys : Sys
  calls : List Int
  crashed : Bool
deriving DecidableEq

/-- The `for` loop of lines 228-356.  `fuel` is the number of remaining
iterations (`tasks.length - i`; the length is invariant during the loop). -/
def execLoop (env : Env) : Nat → Int → WorkflowState → Sys → List Int → LoopOut
  | 0, _, s, sys, calls => ⟨s, sys, calls, false⟩
  | Nat.succ fuel, i, s, sys, calls =>
    match getI s.tasks i with
    | none => ⟨s, sys, calls, true⟩
    | some task =>
      if task.status = TaskStatus.completed ∨ task.status = TaskStatus.failed then
        -- lines 230-234: skip finished tasks on resume
        execLoop env fuel (i + 1) s sys calls
      else
        let r := processTask env i task s sys
        let calls1 := calls ++ (if r.called then [i] else [])
        if r.stopped then ⟨r.state, r.sys, calls1, false⟩
        else execLoop env fuel (i + 1) r.state r.sys calls1

/-- Lines 358-386: post-loop status resolution. -/
def postLoop (s : WorkflowState) : WorkflowState :=
  if s.status ≠ WfStatus.failed ∧ s.status ≠ WfStatus.running then
    if s.tasks.all (fun t => t.status == TaskStatus.completed) then
      { s with status := WfStatus.completed }
    else { s with status := WfStatus.failed }
  else if s.status = WfStatus.running then
    if s.tasks.all (fun t => t.status == TaskStatus.completed) ∧
        s.currentTaskIndex = (s.tasks.length : Int) then
      { s with status := WfStatus.completed }
    else if s.tasks.any (fun t => t.status == TaskStatus.failed) then
      { s with status := WfStatus.failed }
    else { s with status := WfStatus.failed }
  else s

/-- `executeWorkflow()` (lines 209-393). -/
def executeWorkflow (env : Env) (s0 : WorkflowState) (sys : Sys) : LoopOut :=
  if s0.tasks.length = 0 ∧ s0.status ≠ WfStatus.failed then
    ⟨{ s0 with status := WfStatus.completed }, sys, [], false⟩
  else if s0.status = WfStatus.completed ∨ s0.status = WfStatus.failed then
    ⟨s0, sys, [], false⟩
  else
    let s1 := { s0 with status := WfStatus.running }
    let r := execLoop env ((s1.tasks.length : Int) - s1.currentTaskIndex).toNat
      s1.currentTaskIndex s1 sys []
    if r.crashed then r else { r with state := postLoop r.state }

/-! ## Planning (`plan()`, lines 136-203) -/

def planWorkflow (env : Env) (s0 : WorkflowState) (sys : Sys) : WorkflowState × Sys :=
  let s := { s0 with status := WfStatus.running }
  match env.agents "PlanningAgent" with
  | none => ({ s with status := WfStatus.failed, tasks := [] }, sys)
  | some behave =>
    let pid := sys.genId "task_"
    let p1 := pid.2.tick
    let p2 := p1.2.tick
    let p3 := p2.2.tick
    let ptask : Task := {
      id := pid.1
      agentName := "PlanningAgent"
      input := AgentInput.requestOf s.originalUserInput
      status := TaskStatus.running
      createdAt := p1.1
      updatedAt := p2.1
      startedAt := some p3.1
      completedAt := none
      error := none
      dependencies := []
      output := none }
    match behave ptask s with
    | AgentResult.thrown _ =>
      let q1 := p3.2.tick
      let q2 := q1.2.tick
      ({ s with status := WfStatus.failed, tasks := [] }, q2.2)
    | AgentResult.returned out =>
      let q1 := p3.2.tick
      let q2 := q1.2.tick
      match out.status, out.plannedTasks with
      | AOStatus.success, some (t :: ts) =>
        let s1 := { s with tasks := (t :: ts).map TaskBase.toTask }
        let ctx2 := match out.sharedContextUpdates with
                    | some u => mergeCtx s1.sharedContext u
                    | none => s1.sharedContext
        ({ s1 with sharedContext := ctx2, status := WfStatus.pending }, q2.2)
      | _, _ => ({ s with status := WfStatus.failed, tasks := [] }, q2.2)

/-! ## Multi-turn replanning (`processTurn`, lines 399-515) -/

/-- JS `Array.prototype.findIndex` (−1 when no element matches). -/
def findIdxO {α : Type} (p : α → Bool) : List α → Option Nat
  | [] => none
  | a :: l => if p a then some 0 else (findIdxO p l).map (fun n => n + 1)

def findIndexJS {α : Type} (p : α → Bool) (l : List α) : Int :=
  match findIdxO p l with
  | some n => (n : Int)
  | none => -1

/-- The two ways the replanning phase can end: an early `return` with an
error state, or the spliced state handed to `executeWorkflow`. -/
inductive TurnStage where
  | stopped (s : WorkflowState) (sys : Sys)
  | planned (s : WorkflowState) (sys : Sys)
deriving DecidableEq

/-- `processTurn` up to (excluding) the final `executeWorkflow` call. -/
def processTurnPlan (env : Env) (userInput : String) (s0 : WorkflowState) (sys : Sys) :
    TurnStage :=
  -- step 1: status, history append (persistence modelled as succeeding)
  let hist := (s0.sharedContext.conversationHistory.getD []) ++ [⟨"user", userInput⟩]
  let s := { s0 with
    status := WfStatus.processing_turn
    sharedContext := { s0.sharedContext with conversationHistory := some hist } }
  match env.agents "PlanningAgent" with
  | none =>
    TurnStage.stopped { s with
      status := WfStatus.failed
      error := some "PlanningAgent not available for multi-turn." } sys
  | some behave =>
    let existingIds := (s.tasks.filter (fun t => !(t.status == TaskStatus.completed))).map
      (fun t => t.id)
    let pid := sys.genId "task_plan_turn_"
    let p1 := pid.2.tick
    let p2 := p1.2.tick
    let metaTask : Task := {
      id := pid.1
      agentName := "PlanningAgent"
      input := AgentInput.turnPlanning hist existingIds
      status := TaskStatus.pending
      createdAt := p1.1
      updatedAt := p2.1
      startedAt := none
      completedAt := none
      error := none
      dependencies := []
      output := none }
    let s1 := { s with status := WfStatus.planning }
    match behave metaTask s1 with
    | AgentResult.thrown msg =>
      TurnStage.stopped { s1 with
        status := WfStatus.failed
        error := some ("PlanningAgent execution error: " ++ jsInterp msg) } p2.2
    | AgentResult.returned out =>
      if out.status = AOStatus.failure ∨ out.plannedTasks = none then
        TurnStage.stopped { s1 with
          status := WfStatus.failed
          error := some (jsOr out.error "Planning for the new turn failed.") } p2.2
      else
        -- lines 475-493: splice and cursor reset
        let tasks1 := s1.tasks.filter (fun t => t.status == TaskStatus.completed) ++
          (out.plannedTasks.getD []).map TaskBase.toTask
        let idx0 := findIndexJS
          (fun t => t.status == TaskStatus.pending || t.status == TaskStatus.running) tasks1
        let idx1 := if idx0 = -1 ∧ tasks1.any (fun t => !(t.status == TaskStatus.completed))
          then 0 else idx0
        let s2 := { s1 with tasks := tasks1, currentTaskIndex := idx1 }
        let ctx3 := match out.sharedContextUpdates with
                    | some u => mergeCtx s2.sharedContext u
                    | none => s2.sharedContext
        TurnStage.planned { s2 with sharedContext := ctx3, status := WfStatus.pending } p2.2

/-- `processTurn(userInput)` including the trailing `executeWorkflow()`. -/
def processTurn (env : Env) (userInput : String) (s0 : WorkflowState) (sys : Sys) :
    LoopOut :=
  match processTurnPlan env userInput s0 sys with
  | TurnStage.stopped s sys1 => ⟨s, sys1, [], false⟩
  | TurnStage.planned s sys1 => executeWorkflow env s sys1

/-! ## Construction of a new workflow (constructor, lines 56-75) -/

def newWorkflow (initialUserInput : String) (sys : Sys) : WorkflowState × Sys :=
  let pid := sys.genId "wf_"
  (⟨pid.1, initialUserInput, [], 0, ⟨some [⟨"user", initialUserInput⟩], []⟩,
    WfStatus.pending, none⟩, pid.2)

/-! ## Persistence (`WorkflowStorageService`) -/

/-- A timestamp position in the serialized form: either a live date value or
its textual (JSON) encoding. -/
inductive TSVal where
  | date (t : Nat)
  | str (s : String)
deriving DecidableEq

/-- Decimal digits of `n`, least-significant first. -/
def natDigitsRev (n : Nat) : List Char :=
  if h : n = 0 then []
  else Char.ofNat (48 + n % 10) :: natDigitsRev (n / 10)
decreasing_by exact Nat.div_lt_self (Nat.pos_of_ne_zero h) (by omega)

/-- The textual encoding of a `Date` under `JSON.stringify` (an ISO-like
timestamp literal; modelled as a marker plus the decimal instant — lossless,
as the real millisecond-precision ISO string is). -/
def isoOfTime (n : Nat) : String := ⟨'T' :: (natDigitsRev n).reverse⟩

/-- `new Date(text)` on such an encoding. -/
def timeOfIso (s : String) : Nat :=
  (s.data.drop 1).foldl (fun a c => a * 10 + (c.toNat - 48)) 0

/-- A task as it sits in the store after `JSON.parse`: timestamps may be
text or (after revival) date values. -/
structure RawTask where
  id : String
  agentName : String
  input : AgentInput
  status : TaskStatus
  createdAt : TSVal
  updatedAt : TSVal
  startedAt : Option TSVal
  completedAt : Option TSVal
  error : Option String
  dependencies : List String
  output : Option AgentOutput
deriving DecidableEq

structure RawState where
  workflowId : String
  originalUserInput : String
  tasks : List RawTask
  currentTaskIndex : Int
  sharedContext : SharedCtx
  status : WfStatus
  error : Option String
deriving DecidableEq

/-- `JSON.stringify`: dates become text, absent (`undefined`) fields stay
absent, everything else round-trips structurally. -/
def serializeTask (t : Task) : RawTask :=
  ⟨t.id, t.agentName, t.input, t.status, TSVal.str (isoOfTime t.createdAt),
    TSVal.str (isoOfTime t.updatedAt), t.startedAt.map (fun d => TSVal.str (isoOfTime d)),
    t.completedAt.map (fun d => TSVal.str (isoOfTime d)), t.error, t.dependencies, t.output⟩

def serializeState (s : WorkflowState) : RawState :=
  ⟨s.workflowId, s.originalUserInput, s.tasks.map serializeTask, s.currentTaskIndex,
    s.sharedContext, s.status, s.error⟩

/-- The revival step of `load` (lines 67-80): a truthy string timestamp is
replaced by `new Date(...)` of it. -/
def reviveTS (v : TSVal) : TSVal :=
  match v with
  | TSVal.date t => TSVal.date t
  | TSVal.str s => if s = "" then TSVal.str s else TSVal.date (timeOfIso s)

def reviveTask (t : RawTask) : RawTask :=
  { t with
    createdAt := reviveTS t.createdAt
    updatedAt := reviveTS t.updatedAt
    startedAt := t.startedAt.map reviveTS
    completedAt := t.completedAt.map reviveTS }

def reviveState (s : RawState) : RawState :=
  { s with tasks := s.tasks.map reviveTask }

/-- `save(workflowId, state)`: `JSON.stringify` then `store.set`
(the newest entry shadows older ones, as `Map.set` replaces). -/
def saveWf (store : List (String × RawState)) (id : String) (s : WorkflowState) :
    List (String × RawState) :=
  (id, serializeState s) :: store

/-- `load(workflowId)`: `store.get`, `JSON.parse`, then date revival. -/
def loadWf (store : List (String × RawState)) (id : String) : Option RawState :=
  match store.find? (fun kv => kv.1 == id) with
  | none => none
  | some kv => some (reviveState kv.2)

/-- The image of an in-memory state inside `RawState`, all timestamps as
date values: what a correct round trip must produce. -/
def rawOfTask (t : Task) : RawTask :=
  ⟨t.id, t.agentName, t.input, t.status, TSVal.date t.createdAt,
    TSVal.date t.updatedAt, t.startedAt.map TSVal.date, t.completedAt.map TSVal.date,
    t.error, t.dependencies, t.output⟩

def rawOfState (s : WorkflowState) : RawState :=
  ⟨s.workflowId, s.originalUserInput, s.tasks.map rawOfTask, s.currentTaskIndex,
    s.sharedContext, s.status, s.error⟩

/-- Partial inverse of `rawOfState`: succeeds exactly when every timestamp
is a date value, i.e. when the loaded state is usable as a `WorkflowState`. -/
def taskOfRaw (t : RawTask) : Option Task :=
  match t.createdAt, t.updatedAt, t.startedAt, t.completedAt with
  | TSVal.date c, TSVal.date u, none, none =>
    some ⟨t.id, t.agentName, t.input, t.status, c, u, none, none,
      t.error, t.dependencies, t.output⟩
  | TSVal.date c, TSVal.date u, some (TSVal.date st), none =>
    some ⟨t.id, t.agentName, t.input, t.status, c, u, some st, none,
      t.error, t.dependencies, t.output⟩
  | TSVal.date c, TSVal.date u, none, some (TSVal.date co) =>
    some ⟨t.id, t.agentName, t.input, t.status, c, u, none, some co,
      t.error, t.dependencies, t.output⟩
  | TSVal.date c, TSVal.date u, some (TSVal.date st), some (TSVal.date co) =>
    some ⟨t.id, t.agentName, t.input, t.status, c, u, some st, some co,
      t.error, t.dependencies, t.output⟩
  | _, _, _, _ => none

/-! ## Agent-behaviour predicates used by the failure-propagation claims -/

/-- The agent registered under `name` deterministically returns a
success-flagged result without an action directive (JS-truthiness: an absent
or empty `actionString` counts as none). -/
def succeedsPlain (env : Env) (name : String) : Prop :=
  ∃ b out, env.agents name = some b ∧ (∀ t st, b t st = AgentResult.returned out) ∧
    out.status = AOStatus.success ∧ jsTruthyStr out.actionString = false

/-- The agent registered under `name` deterministically throws with message
`m` or returns a failure-flagged result whose `error` is `m`. -/
def failsWith (env : Env) (name m : String) : Prop :=
  ∃ b, env.agents name = some b ∧
    ((∀ t st, b t st = AgentResult.thrown (some m)) ∨
      ∃ out, (∀ t st, b t st = AgentResult.returned out) ∧
        out.status = AOStatus.failure ∧ out.error = some m)

/-! ## Concrete instances used in scenarios, witnesses and counterexamples -/

def outSuccessPlain : AgentOutput := ⟨AOStatus.success, none, none, none, none⟩

def shellDirective : String := "<boltAction type=\"shell\" content=\"npm test\"></boltAction>"

def outSuccessShell : AgentOutput :=
  ⟨AOStatus.success, none, some shellDirective, none, none⟩

def taskC1a : Task :=
  ⟨"t0", "FileAgent", AgentInput.custom [], TaskStatus.pending, 0, 0, none, none, none, [], none⟩

def taskC1b : Task :=
  ⟨"t1", "ShellAgent", AgentInput.custom [], TaskStatus.pending, 0, 0, none, none, none, [], none⟩

/-- The failed-action scenario of the spec: `FileAgent` succeeds with no
directive, `ShellAgent` succeeds with a shell directive whose execution the
action collaborator reports as failed with `exit code 1`. -/
def envC1 : Env :=
  ⟨fun name =>
    if name = "FileAgent" then some (fun _ _ => AgentResult.returned outSuccessPlain)
    else if name = "ShellAgent" then some (fun _ _ => AgentResult.returned outSuccessShell)
    else none,
   some (fun _ => ActionRunStatus.failed (some "exit code 1"))⟩

def stateC1 : WorkflowState :=
  ⟨"wf", "build a script", [taskC1a, taskC1b], 0, ⟨some [], []⟩, WfStatus.pending, none⟩

def taskDone : Task :=
  ⟨"t0", "FileAgent", AgentInput.custom [], TaskStatus.completed, 0, 0, none, some 1, none, [], none⟩

def outEmptyPlan : AgentOutput := ⟨AOStatus.success, none, none, none, some []⟩

/-- A planner that replans to an empty task list. -/
def envC2 : Env :=
  ⟨fun name =>
    if name = "PlanningAgent" then some (fun _ _ => AgentResult.returned outEmptyPlan)
    else none,
   none⟩

def stateC2 : WorkflowState :=
  ⟨"wf", "build", [taskDone], 1, ⟨some [], []⟩, WfStatus.completed, none⟩

def envNone : Env := ⟨fun _ => none, none⟩

def stateC7f : WorkflowState := ⟨"wf", "x", [], 0, ⟨none, []⟩, WfStatus.failed, none⟩

def stateC7p : WorkflowState := ⟨"wf", "x", [], 0, ⟨none, []⟩, WfStatus.pending, none⟩

def outFail : AgentOutput := ⟨AOStatus.failure, some "boom", none, none, none⟩

/-- A single agent that reports failure. -/
def envC8 : Env :=
  ⟨fun name =>
    if name = "FileAgent" then some (fun _ _ => AgentResult.returned outFail) else none,
   none⟩

def stateOne : WorkflowState :=
  ⟨"wf", "x", [taskC1a], 0, ⟨some [], []⟩, WfStatus.pending, none⟩

/-- A single agent that succeeds with no directive. -/
def envOk : Env :=
  ⟨fun name =>
    if name = "FileAgent" then some (fun _ _ => AgentResult.returned outSuccessPlain) else none,
   none⟩

/-- A state resuming with a completed task at index 0 and a pending one at 1. -/
def stateResume : WorkflowState :=
  ⟨"wf", "x", [taskDone, taskC1a], 0, ⟨some [], []⟩, WfStatus.pending, none⟩

def updC10 : CtxUpdates := ⟨none, [("key", "value")]⟩

def outC10 : AgentOutput := ⟨AOStatus.failure, some "boom", none, some updC10, none⟩

def bC10 : Task → WorkflowState → AgentResult := fun _ _ => AgentResult.returned outC10

def envC10 : Env := ⟨fun name => if name = "FileAgent" then some bC10 else none, none⟩

def outSuccessA : AgentOutput := ⟨AOStatus.success, none, none, none, none⟩

def bC5a : Task → WorkflowState → AgentResult := fun _ _ => AgentResult.returned outSuccessA

def outFailB : AgentOutput := ⟨AOStatus.failure, some "boom", none, none, none⟩

def bC5b : Task → WorkflowState → AgentResult := fun _ _ => AgentResult.returned outFailB

def envC5 : Env :=
  ⟨fun name =>
    if name = "AlphaAgent" then some bC5a
    else if name = "BetaAgent" then some bC5b
    else none,
   none⟩

def taskC5a : Task :=
  ⟨"t0", "AlphaAgent", AgentInput.custom [], TaskStatus.pending, 0, 0, none, none, none, [], none⟩

def taskC5b : Task :=
  ⟨"t1", "BetaAgent", AgentInput.custom [], TaskStatus.pending, 0, 0, none, none, none, [], none⟩

def taskC5c : Task :=
  ⟨"t2", "AlphaAgent", AgentInput.custom [], TaskStatus.pending, 0, 0, none, none, none, [], none⟩

def stateC5 : WorkflowState :=
  ⟨"wf", "x", [taskC5a, taskC5b, taskC5c], 0, ⟨some [], []⟩, WfStatus.pending, none⟩


def taskC4done : Task :=
  ⟨"d0", "FileAgent", AgentInput.custom [], TaskStatus.completed, 0, 0, some 1, some 2,
    none, [], none⟩

def taskC4fail : Task :=
  ⟨"d1", "ShellAgent", AgentInput.custom [], TaskStatus.failed, 0, 0, some 1, none,
    some "exit code 1", [], none⟩

def tbC4 : TaskBase :=
  ⟨"n0", "FileAgent", AgentInput.custom [], TaskStatus.pending, 5, 5, none, none, none, []⟩

def outC4 : AgentOutput := ⟨AOStatus.success, none, none, none, some [tbC4]⟩

def bC4 : Task → WorkflowState → AgentResult := fun _ _ => AgentResult.returned outC4

def envC4 : Env := ⟨fun name => if name = "PlanningAgent" then some bC4 else none, none⟩

def stateC4 : WorkflowState :=
  ⟨"wf", "x", [taskC4done, taskC4fail], 1, ⟨some [], []⟩, WfStatus.failed, none⟩

/-- How one stored task can change across a run: untouched, failed, or
completed with `completedAt` stamped. -/
def taskEvolve (t0 tF : Task) : Prop :=
  tF = t0 ∨ tF.status = TaskStatus.failed ∨
    (tF.status = TaskStatus.completed ∧ tF.completedAt.isSome = true)

/-! ## Entity escape/unescape: the five replace passes -/

/-- Matching a pattern of plain characters is not affected by an encoding
that rewrites only special characters into `&`-led entities. -/
theorem startsWith_emap_plain (f : Char → List Char)
    (hf : ∀ c, f c = [c] ∨ ∃ t, f c = '&' :: t) :
    ∀ pat : List Char, (∀ p ∈ pat, p ≠ '&' ∧ f p = [p]) →
      ∀ s, startsWith pat (emap f s) = startsWith pat s := by
  intro pat
  induction pat with
  | nil => intro _ s; simp [startsWith]
  | cons p ps ih =>
    intro hpat s
    cases s with
    | nil => simp [emap, startsWith]
    | cons x s' =>
      have hp := hpat p (List.mem_cons_self p ps)
      have ihx := ih (fun q hq => hpat q (List.mem_cons_of_mem _ hq)) s'
      rcases hf x with hx | ⟨t, hx⟩
      · by_cases hpx : p = x
        · subst hpx
          simp [emap, hx, startsWith, ihx]
        · have hb : (p == x) = false := beq_eq_false_iff_ne.mpr hpx
          simp [emap, hx, startsWith, hb]
      · have hpx : p ≠ x := by
          intro he
          subst he
          rw [hp.2] at hx
          have : p = '&' := by
            have := congrArg (fun l => l.head?) hx
            simpa using this
          exact hp.1 this
        have hb1 : (p == '&') = false := beq_eq_false_iff_ne.mpr hp.1
        have hb2 : (p == x) = false := beq_eq_false_iff_ne.mpr hpx
        simp [emap, hx, startsWith, hb1, hb2]

/-- After the `&lt;` pass, `<` is literal and the other four entities are
untouched. -/
theorem pass_lt : ∀ s : List Char,
    replaceL entLt "<".toList (emap escXmlChar s) = emap enc1 s := by
  intro s
  induction s with
  | nil => rfl
  | cons c s' ih =>
    by_cases h1 : c = '<'
    · subst h1
      simpa +decide [emap, escXmlChar, enc1, replaceL, replaceSkip, startsWith] using ih
    by_cases h2 : c = '>'
    · subst h2
      simpa +decide [emap, escXmlChar, enc1, replaceL, replaceSkip, startsWith] using ih
    by_cases h3 : c = '&'
    · subst h3
      simpa +decide [emap, escXmlChar, enc1, replaceL, replaceSkip, startsWith] using ih
    by_cases h4 : c = '"'
    · subst h4
      simpa +decide [emap, escXmlChar, enc1, replaceL, replaceSkip, startsWith] using ih
    by_cases h5 : c = '\x27'
    · subst h5
      simpa +decide [emap, escXmlChar, enc1, replaceL, replaceSkip, startsWith] using ih
    · have hb : ('&' == c) = false := beq_eq_false_iff_ne.mpr (Ne.symm h3)
      simpa [emap, escXmlChar, enc1, replaceL, replaceSkip, startsWith,
        h1, h2, h3, h4, h5, hb] using ih

/-- After the `&gt;` pass, `<` and `>` are literal. -/
theorem pass_gt : ∀ s : List Char,
    replaceL entGt ">".toList (emap enc1 s) = emap enc2 s := by
  intro s
  induction s with
  | nil => rfl
  | cons c s' ih =>
    by_cases h1 : c = '<'
    · subst h1
      simpa +decide [emap, escXmlChar, enc1, enc2, replaceL, replaceSkip, startsWith] using ih
    by_cases h2 : c = '>'
    · subst h2
      simpa +decide [emap, escXmlChar, enc1, enc2, replaceL, replaceSkip, startsWith] using ih
    by_cases h3 : c = '&'
    · subst h3
      simpa +decide [emap, escXmlChar, enc1, enc2, replaceL, replaceSkip, startsWith] using ih
    by_cases h4 : c = '"'
    · subst h4
      simpa +decide [emap, escXmlChar, enc1, enc2, replaceL, replaceSkip, startsWith] using ih
    by_cases h5 : c = '\x27'
    · subst h5
      simpa +decide [emap, escXmlChar, enc1, enc2, replaceL, replaceSkip, startsWith] using ih
    · have hb : ('&' == c) = false := beq_eq_false_iff_ne.mpr (Ne.symm h3)
      simpa [emap, escXmlChar, enc1, enc2, replaceL, replaceSkip, startsWith,
        h1, h2, h3, h4, h5, hb] using ih

/-- After the `&amp;` pass, `&` is literal; only `"` and `'` stay escaped. -/
theorem pass_amp : ∀ s : List Char,
    replaceL entAmp "&".toList (emap enc2 s) = emap enc3 s := by
  intro s
  induction s with
  | nil => rfl
  | cons c s' ih =>
    by_cases h1 : c = '<'
    · subst h1
      simpa +decide [emap, escXmlChar, enc2, enc3, entQuot, entApos, replaceL, replaceSkip, startsWith] using ih
    by_cases h2 : c = '>'
    · subst h2
      simpa +decide [emap, escXmlChar, enc2, enc3, entQuot, entApos, replaceL, replaceSkip, startsWith] using ih
    by_cases h3 : c = '&'
    · subst h3
      simpa +decide [emap, escXmlChar, enc2, enc3, entQuot, entApos, replaceL, replaceSkip, startsWith] using ih
    by_cases h4 : c = '"'
    · subst h4
      simpa +decide [emap, escXmlChar, enc2, enc3, entQuot, entApos, replaceL, replaceSkip, startsWith] using ih
    by_cases h5 : c = '\x27'
    · subst h5
      simpa +decide [emap, escXmlChar, enc2, enc3, entQuot, entApos, replaceL, replaceSkip, startsWith] using ih
    · have hb : ('&' == c) = false := beq_eq_false_iff_ne.mpr (Ne.symm h3)
      simpa [emap, escXmlChar, enc2, enc3, replaceL, replaceSkip, startsWith,
        h1, h2, h3, h4, h5, hb] using ih

/-- The `&quot;` pass restores `"` — provided the original text does not
itself contain the character sequence `&quot;` (which the earlier `&amp;`
pass has just re-created from its escaped form). -/
theorem pass_quot : ∀ s : List Char, hasSub entQuot s = false →
    replaceL entQuot "\"".toList (emap enc3 s) = emap enc4 s := by
  intro s
  induction s with
  | nil => intro _; rfl
  | cons c s' ih =>
    intro h
    have hh : startsWith entQuot (c :: s') = false ∧ hasSub entQuot s' = false := by
      have := h
      simp [hasSub] at this
      exact this
    have ihs := ih hh.2
    by_cases h4 : c = '"'
    · subst h4
      simpa +decide [emap, enc3, enc4, entQuot, entApos, replaceL, replaceSkip, startsWith] using ihs
    by_cases h5 : c = '\x27'
    · subst h5
      simpa +decide [emap, enc3, enc4, entQuot, entApos, replaceL, replaceSkip, startsWith] using ihs
    by_cases h3 : c = '&'
    · subst h3
      have htr := startsWith_emap_plain enc3
        (by
          intro x
          by_cases hx1 : x = '"'
          · exact Or.inr ⟨"quot;".toList, by simp [enc3, hx1, entQuot]⟩
          by_cases hx2 : x = '\x27'
          · exact Or.inr ⟨"apos;".toList, by simp [enc3, hx1, hx2, entApos]⟩
          · exact Or.inl (by simp [enc3, hx1, hx2]))
        "quot;".toList (by decide) s'
      have hsw : startsWith "quot;".toList s' = false := by
        have := hh.1
        simpa +decide [startsWith, entQuot] using this
      have hsw2 : startsWith "quot;".toList (emap enc3 s') = false := by rw [htr, hsw]
      have hq : startsWith entQuot ('&' :: emap enc3 s') = false := by
        simpa +decide [startsWith, entQuot] using hsw2
      simpa [emap, enc3, enc4, replaceL, replaceSkip, hq] using ihs
    · have hb : ('&' == c) = false := beq_eq_false_iff_ne.mpr (Ne.symm h3)
      have hq : startsWith entQuot (c :: emap enc3 s') = false := by
        simp [entQuot, startsWith, hb]
      simpa [emap, enc3, enc4, replaceL, replaceSkip, hq, h4, h5] using ihs

/-- The `&apos;` pass restores `'` under the analogous condition. -/
theorem pass_apos : ∀ s : List Char, hasSub entApos s = false →
    replaceL entApos "\x27".toList (emap enc4 s) = s := by
  intro s
  induction s with
  | nil => intro _; rfl
  | cons c s' ih =>
    intro h
    have hh : startsWith entApos (c :: s') = false ∧ hasSub entApos s' = false := by
      have := h
      simp [hasSub] at this
      exact this
    have ihs := ih hh.2
    by_cases h5 : c = '\x27'
    · subst h5
      simpa +decide [emap, enc4, entApos, replaceL, replaceSkip, startsWith] using ihs
    by_cases h3 : c = '&'
    · subst h3
      have htr := startsWith_emap_plain enc4
        (by
          intro x
          by_cases hx2 : x = '\x27'
          · exact Or.inr ⟨"apos;".toList, by simp [enc4, hx2, entApos]⟩
          · exact Or.inl (by simp [enc4, hx2]))
        "apos;".toList (by decide) s'
      have hsw : startsWith "apos;".toList s' = false := by
        have := hh.1
        simpa +decide [startsWith, entApos] using this
      have hsw2 : startsWith "apos;".toList (emap enc4 s') = false := by rw [htr, hsw]
      have hq : startsWith entApos ('&' :: emap enc4 s') = false := by
        simpa +decide [startsWith, entApos] using hsw2
      simpa [emap, enc4, replaceL, replaceSkip, hq] using ihs
    · have hb : ('&' == c) = false := beq_eq_false_iff_ne.mpr (Ne.symm h3)
      have hq : startsWith entApos (c :: emap enc4 s') = false := by
        simp [entApos, startsWith, hb]
      simpa [emap, enc4, replaceL, replaceSkip, hq, h5] using ihs

/-- The unescape chain inverts `escapeXml` exactly when the original text
contains neither `&quot;` nor `&apos;` as a substring. -/
theorem unescape_escape (s : List Char) (h1 : hasSub entQuot s = false)
    (h2 : hasSub entApos s = false) :
    unescapeEntities (emap escXmlChar s) = s := by
  rw [unescapeEntities, pass_lt, pass_gt, pass_amp, pass_quot s h1, pass_apos s h2]

/-! ## Parsing the file directive built from escaped content -/

theorem quote_not_mem_escChar (c : Char) : '"' ∉ escXmlChar c := by
  unfold escXmlChar
  split_ifs with h1 h2 h3 h4 h5
  · decide
  · decide
  · decide
  · subst h4; decide
  · decide
  · simp only [List.mem_singleton]
    exact fun he => h4 he.symm

theorem quote_not_mem_escape : ∀ l : List Char, '"' ∉ emap escXmlChar l := by
  intro l
  induction l with
  | nil => simp [emap]
  | cons c r ih =>
    simp only [emap, List.mem_append]
    rintro (hm | hm)
    · exact quote_not_mem_escChar c hm
    · exact ih hm

/-- The lazy content capture stops exactly at the closing quote when the
captured region is quote-free and the lookahead holds. -/
theorem lazyCap_esc : ∀ esc u : List Char, '"' ∉ esc → lookaheadOk u = true →
    lazyCap (esc ++ '"' :: u) = some esc := by
  intro esc
  induction esc with
  | nil =>
    intro u _ hu
    simp [lazyCap, hu]
  | cons c cs ih =>
    intro u h hu
    have hc : (c == '"') = false :=
      beq_eq_false_iff_ne.mpr (fun he => h (he ▸ List.mem_cons_self c cs))
    simp [lazyCap, hc, ih u (fun hm => h (List.mem_cons_of_mem _ hm)) hu]

/-- The `type` attribute of the built file directive parses to `file`,
whatever the content is. -/
theorem scanType_directive (s : String) :
    scanAttr "type=\"".toList (fileAgentActionString "a.txt" s).data
      = some "file".toList := by
  simp +decide [fileAgentActionString, escapeXml, String.data_append, scanAttr, startsWith]

/-- The `filePath` attribute of the built file directive parses to the
inserted path, whatever the content is. -/
theorem scanFilePath_directive (s : String) :
    scanAttr "filePath=\"".toList (fileAgentActionString "a.txt" s).data
      = some "a.txt".toList := by
  simp +decide [fileAgentActionString, escapeXml, String.data_append, scanAttr, startsWith]

/-- The `content` attribute of the built file directive captures exactly the
escaped content. -/
theorem scanContent_directive (s : String) :
    scanContent "content=\"".toList (fileAgentActionString "a.txt" s).data
      = some (emap escXmlChar s.data) := by
  have hpost : ("\"></boltAction>".data : List Char) = '"' :: "></boltAction>".data := by
    decide
  have hlc : lazyCap (emap escXmlChar s.data ++ "\"></boltAction>".data)
      = some (emap escXmlChar s.data) := by
    rw [hpost]
    exact lazyCap_esc _ _ (quote_not_mem_escape _) (by decide)
  simp +decide [fileAgentActionString, escapeXml, String.data_append, scanContent,
    startsWith, hlc]

/-! ## Claim 3 -/

/-- C3 (counterexample): escaping the content `&quot;` and translating the
resulting file directive yields the content `"`, not the original string —
escape followed by translate/unescape is not the identity on content. -/
theorem claim3_counterexample :
    ((parseBoltActionString (fileAgentActionString "a.txt" "&quot;") "t1" ⟨0, 0⟩).1.map
      (fun acd => acd.action)) = some (ParsedAction.file "a.txt" "\"") ∧
    ("\"" : String) ≠ "&quot;" := by
  decide

/-- C3 (amended): for every content string `s` that does not contain the
character sequences `&quot;` or `&apos;`, building a file-type directive with
`s` entity-escaped (as the agents do) and translating it yields a file action
whose path and content are restored exactly; in particular translation
succeeds. -/
theorem claim3_amended (s : String) (h1 : hasSub entQuot s.data = false)
    (h2 : hasSub entApos s.data = false) (tid : String) (sys : Sys) :
    (parseBoltActionString (fileAgentActionString "a.txt" s) tid sys).1
      = some ⟨tid ++ "_action_" ++ (sys.genId "act_").1,
          ParsedAction.file "a.txt" s⟩ := by
  have hu : unescapeEntities (emap escXmlChar s.data) = s.data :=
    unescape_escape s.data h1 h2
  unfold parseBoltActionString
  rw [scanType_directive s, scanFilePath_directive s, scanContent_directive s]
  simp +decide [hu]

/-- C3 (witness): a concrete content exercising all five escaped characters. -/
theorem claim3_witness :
    hasSub entQuot ("a<b>\x27c\"&d" : String).data = false ∧
    hasSub entApos ("a<b>\x27c\"&d" : String).data = false ∧
    (parseBoltActionString (fileAgentActionString "a.txt" "a<b>\x27c\"&d") "t1" ⟨0, 0⟩).1
      = some ⟨"t1_action_act_0", ParsedAction.file "a.txt" "a<b>\x27c\"&d"⟩ := by
  refine ⟨by decide, by decide, ?_⟩
  rw [claim3_amended "a<b>\x27c\"&d" (by decide) (by decide) "t1" ⟨0, 0⟩]
  decide

/-! ## Basic facts about task-array access -/

theorem getI_pos {α : Type} (l : List α) (i : Int) (a : α) (h : getI l i = some a) :
    0 ≤ i := by
  by_contra hneg
  simp [getI, hneg] at h

theorem getI_lt {α : Type} (l : List α) (i : Int) (a : α) (h : getI l i = some a) :
    i < (l.length : Int) := by
  have h0 := getI_pos l i a h
  simp only [getI, if_pos h0] at h
  obtain ⟨hlt, -⟩ := List.get?_eq_some.mp h
  omega

theorem getI_set_self (s : WorkflowState) (i : Int) (t : Task)
    (h0 : 0 ≤ i) (hl : i < (s.tasks.length : Int)) :
    getI (s.setTask i t).tasks i = some t := by
  have hlt : i.toNat < s.tasks.length := by omega
  simp only [getI, if_pos h0, WorkflowState.setTask]
  rw [List.get?_eq_getElem?, List.getElem?_set_eq hlt]

theorem getI_set_ne (s : WorkflowState) (i j : Int) (t : Task)
    (h0 : 0 ≤ i) (hne : j ≠ i) :
    getI (s.setTask i t).tasks j = getI s.tasks j := by
  by_cases hj : 0 ≤ j
  · have hnn : i.toNat ≠ j.toNat := by omega
    simp only [getI, if_pos hj, WorkflowState.setTask]
    rw [List.get?_eq_getElem?, List.get?_eq_getElem?, List.getElem?_set_ne hnn]
  · simp [getI, hj]

theorem getI_some_of_lt {α : Type} (l : List α) (i : Int) (h0 : 0 ≤ i)
    (hl : i < (l.length : Int)) : ∃ a, getI l i = some a := by
  have hlt : i.toNat < l.length := by omega
  cases hg : l.get? i.toNat with
  | none =>
    have := List.get?_eq_none.mp hg
    omega
  | some a => exact ⟨a, by simp only [getI, if_pos h0, hg]⟩

/-! ## Shape of one loop-body step -/

/-- Whatever branch `processTask` takes, the state it returns is `s` with
exactly `tasks[i]` rewritten (plus workflow-level fields): on a `continue`
the task is completed with `completedAt` stamped and the cursor advanced to
`i + 1`; on a `break` the workflow is failed, the cursor is unchanged (or
advanced, for the dead post-advance check), and the task is failed or
completed-and-stamped. -/
theorem processTask_shape (env : Env) (i : Int) (task : Task) (s : WorkflowState) (sys : Sys) :
    ∃ t4 : Task,
      (processTask env i task s sys).state.tasks = s.tasks.set i.toNat t4 ∧
      ((processTask env i task s sys).stopped = false →
        (processTask env i task s sys).state.currentTaskIndex = i + 1 ∧
        (processTask env i task s sys).state.status = s.status ∧
        t4.status = TaskStatus.completed ∧ t4.completedAt.isSome = true) ∧
      ((processTask env i task s sys).stopped = true →
        (processTask env i task s sys).state.status = WfStatus.failed ∧
        ((processTask env i task s sys).state.currentTaskIndex = s.currentTaskIndex ∨
          ((processTask env i task s sys).state.currentTaskIndex = i + 1 ∧
            s.status = WfStatus.failed)) ∧
        (t4.status = TaskStatus.failed ∨
          (t4.status = TaskStatus.completed ∧ t4.completedAt.isSome = true))) := by
  cases hS : task.startedAt <;>
  · unfold processTask completeAdvance
    simp only [hS]
    split
    case _ =>
      exact ⟨_, by simp [WorkflowState.setTask, List.set_set] <;> rfl,
        by simp [WorkflowState.setTask, List.set_set] <;> tauto,
        by simp [WorkflowState.setTask, List.set_set] <;> tauto⟩
    case _ =>
      split
      case _ =>
        exact ⟨_, by simp [WorkflowState.setTask, List.set_set] <;> rfl,
          by simp [WorkflowState.setTask, List.set_set] <;> tauto,
          by simp [WorkflowState.setTask, List.set_set] <;> tauto⟩
      case _ =>
        repeat' split
        all_goals
          exact ⟨_, by simp [WorkflowState.setTask, List.set_set] <;> rfl,
            by simp [WorkflowState.setTask, List.set_set] <;> tauto,
            by simp [WorkflowState.setTask, List.set_set] <;> tauto⟩

theorem getI_setL_self (l : List Task) (i : Int) (t : Task)
    (h0 : 0 ≤ i) (hl : i < (l.length : Int)) :
    getI (l.set i.toNat t) i = some t := by
  have hlt : i.toNat < l.length := by omega
  simp only [getI, if_pos h0]
  rw [List.get?_eq_getElem?, List.getElem?_set_self hlt]

theorem getI_setL_ne (l : List Task) (i j : Int) (t : Task)
    (h0 : 0 ≤ i) (hne : j ≠ i) :
    getI (l.set i.toNat t) j = getI l j := by
  by_cases hj : 0 ≤ j
  · have hnn : i.toNat ≠ j.toNat := by omega
    simp only [getI, if_pos hj]
    rw [List.get?_eq_getElem?, List.get?_eq_getElem?, List.getElem?_set_ne hnn]
  · simp [getI, hj]

/-! ## Loop invariants -/

/-- The loop never crashes, preserves the task-list length, and keeps
`currentTaskIndex` within `[0, tasks.length]`, when entered with a cursor
already in that range. -/
theorem execLoop_inv (env : Env) : ∀ (fuel : Nat) (i : Int) (s : WorkflowState) (sys : Sys)
    (calls : List Int), 0 ≤ i → i + (fuel : Int) = (s.tasks.length : Int) →
    0 ≤ s.currentTaskIndex → s.currentTaskIndex ≤ (s.tasks.length : Int) →
    (execLoop env fuel i s sys calls).crashed = false ∧
    (execLoop env fuel i s sys calls).state.tasks.length = s.tasks.length ∧
    0 ≤ (execLoop env fuel i s sys calls).state.currentTaskIndex ∧
    (execLoop env fuel i s sys calls).state.currentTaskIndex ≤ (s.tasks.length : Int) := by
  intro fuel
  induction fuel with
  | zero =>
    intro i s sys calls h0 hf hi0 hi1
    simp [execLoop, hi0, hi1]
  | succ fuel ih =>
    intro i s sys calls h0 hf hi0 hi1
    have hlt : i < (s.tasks.length : Int) := by
      have : (fuel : Int) + 1 ≥ 1 := by omega
      omega
    obtain ⟨task, htask⟩ := getI_some_of_lt s.tasks i h0 hlt
    by_cases hterm : task.status = TaskStatus.completed ∨ task.status = TaskStatus.failed
    · have hred : execLoop env (fuel + 1) i s sys calls = execLoop env fuel (i + 1) s sys calls := by
        simp [execLoop, htask, hterm]
      rw [hred]
      exact ih (i + 1) s sys calls (by omega) (by push_cast; push_cast at hf; omega) hi0 hi1
    · obtain ⟨t4, hts, hcont, hstop⟩ := processTask_shape env i task s sys
      have hlen : (processTask env i task s sys).state.tasks.length = s.tasks.length := by
        rw [hts]; simp
      cases hstopped : (processTask env i task s sys).stopped with
      | true =>
        have hred : execLoop env (fuel + 1) i s sys calls =
            ⟨(processTask env i task s sys).state, (processTask env i task s sys).sys,
              calls ++ (if (processTask env i task s sys).called then [i] else []), false⟩ := by
          simp [execLoop, htask, hterm, hstopped]
        rw [hred]
        obtain ⟨hst, hidx, ht4⟩ := hstop hstopped
        refine ⟨rfl, hlen, ?_, ?_⟩
        · rcases hidx with h | ⟨h, -⟩ <;> rw [h] <;> omega
        · rcases hidx with h | ⟨h, -⟩ <;> rw [h] <;> omega
      | false =>
        have hred : execLoop env (fuel + 1) i s sys calls =
            execLoop env fuel (i + 1) (processTask env i task s sys).state
              (processTask env i task s sys).sys
              (calls ++ (if (processTask env i task s sys).called then [i] else [])) := by
          simp [execLoop, htask, hterm, hstopped]
        rw [hred]
        obtain ⟨hidx, hst, -, -⟩ := hcont hstopped
        have hres := ih (i + 1) (processTask env i task s sys).state
          (processTask env i task s sys).sys
          (calls ++ (if (processTask env i task s sys).called then [i] else []))
          (by omega) (by rw [hlen]; push_cast; push_cast at hf; omega)
          (by rw [hidx]; omega) (by rw [hidx, hlen]; omega)
        refine ⟨hres.1, ?_, hres.2.2.1, ?_⟩
        · rw [hres.2.1, hlen]
        · have := hres.2.2.2
          rw [hlen] at this
          exact this

/-- Every agent invocation recorded by the loop is at an index at or past the
entry index whose task was, at the time the loop reached it, not yet
`completed` or `failed`. -/
theorem execLoop_calls (env : Env) : ∀ (fuel : Nat) (i : Int) (s : WorkflowState) (sys : Sys)
    (calls : List Int),
    ∃ new, (execLoop env fuel i s sys calls).calls = calls ++ new ∧
      ∀ x ∈ new, i ≤ x ∧ ∃ t, getI s.tasks x = some t ∧
        ¬(t.status = TaskStatus.completed ∨ t.status = TaskStatus.failed) := by
  intro fuel
  induction fuel with
  | zero =>
    intro i s sys calls
    exact ⟨[], by simp [execLoop], by simp⟩
  | succ fuel ih =>
    intro i s sys calls
    cases htask : getI s.tasks i with
    | none => exact ⟨[], by simp [execLoop, htask], by simp⟩
    | some task =>
      have h0 : 0 ≤ i := getI_pos _ _ _ htask
      have hlt : i < (s.tasks.length : Int) := getI_lt _ _ _ htask
      by_cases hterm : task.status = TaskStatus.completed ∨ task.status = TaskStatus.failed
      · have hred : execLoop env (fuel + 1) i s sys calls = execLoop env fuel (i + 1) s sys calls := by
          simp [execLoop, htask, hterm]
        obtain ⟨new, hnew, hprop⟩ := ih (i + 1) s sys calls
        refine ⟨new, by rw [hred, hnew], fun x hx => ⟨?_, (hprop x hx).2⟩⟩
        have := (hprop x hx).1
        omega
      · obtain ⟨t4, hts, -, -⟩ := processTask_shape env i task s sys
        cases hstopped : (processTask env i task s sys).stopped with
        | true =>
          have hred : execLoop env (fuel + 1) i s sys calls =
              ⟨(processTask env i task s sys).state, (processTask env i task s sys).sys,
                calls ++ (if (processTask env i task s sys).called then [i] else []), false⟩ := by
            simp [execLoop, htask, hterm, hstopped]
          refine ⟨if (processTask env i task s sys).called then [i] else [], by rw [hred], ?_⟩
          intro x hx
          have hxi : x = i := by
            rcases Bool.eq_false_or_eq_true (processTask env i task s sys).called with h | h <;>
              simp [h] at hx
            exact hx
          subst hxi
          exact ⟨le_refl x, task, htask, hterm⟩
        | false =>
          have hred : execLoop env (fuel + 1) i s sys calls =
              execLoop env fuel (i + 1) (processTask env i task s sys).state
                (processTask env i task s sys).sys
                (calls ++ (if (processTask env i task s sys).called then [i] else [])) := by
            simp [execLoop, htask, hterm, hstopped]
          obtain ⟨new, hnew, hprop⟩ := ih (i + 1) (processTask env i task s sys).state
            (processTask env i task s sys).sys
            (calls ++ (if (processTask env i task s sys).called then [i] else []))
          refine ⟨(if (processTask env i task s sys).called then [i] else []) ++ new,
            by rw [hred, hnew, List.append_assoc], ?_⟩
          intro x hx
          rcases List.mem_append.mp hx with hx | hx
          · have hxi : x = i := by
              rcases Bool.eq_false_or_eq_true (processTask env i task s sys).called with h | h <;>
                simp [h] at hx
              exact hx
            subst hxi
            exact ⟨le_refl x, task, htask, hterm⟩
          · obtain ⟨hge, t, hget, htns⟩ := hprop x hx
            refine ⟨by omega, t, ?_, htns⟩
            rw [hts] at hget
            rwa [getI_setL_ne s.tasks i x t4 h0 (by omega)] at hget

theorem taskEvolve_refl (t : Task) : taskEvolve t t := Or.inl rfl

theorem taskEvolve_trans {a b c : Task} (h1 : taskEvolve a b) (h2 : taskEvolve b c) :
    taskEvolve a c := by
  rcases h2 with h2 | h2 | h2
  · rwa [h2]
  · exact Or.inr (Or.inl h2)
  · exact Or.inr (Or.inr h2)

theorem execLoop_evolve (env : Env) : ∀ (fuel : Nat) (i : Int) (s : WorkflowState) (sys : Sys)
    (calls : List Int) (j : Int) (t0 tF : Task),
    getI s.tasks j = some t0 →
    getI (execLoop env fuel i s sys calls).state.tasks j = some tF →
    taskEvolve t0 tF := by
  intro fuel
  induction fuel with
  | zero =>
    intro i s sys calls j t0 tF h0 hF
    simp only [execLoop] at hF
    rw [h0] at hF
    cases hF
    exact taskEvolve_refl t0
  | succ fuel ih =>
    intro i s sys calls j t0 tF h0 hF
    cases htask : getI s.tasks i with
    | none =>
      simp only [execLoop, htask] at hF
      rw [h0] at hF
      cases hF
      exact taskEvolve_refl t0
    | some task =>
      have hi0 : 0 ≤ i := getI_pos _ _ _ htask
      have hilt : i < (s.tasks.length : Int) := getI_lt _ _ _ htask
      by_cases hterm : task.status = TaskStatus.completed ∨ task.status = TaskStatus.failed
      · have hred : execLoop env (fuel + 1) i s sys calls = execLoop env fuel (i + 1) s sys calls := by
          simp [execLoop, htask, hterm]
        rw [hred] at hF
        exact ih (i + 1) s sys calls j t0 tF h0 hF
      · obtain ⟨t4, hts, hcont, hstop⟩ := processTask_shape env i task s sys
        cases hstopped : (processTask env i task s sys).stopped with
        | true =>
          have hred : execLoop env (fuel + 1) i s sys calls =
              ⟨(processTask env i task s sys).state, (processTask env i task s sys).sys,
                calls ++ (if (processTask env i task s sys).called then [i] else []), false⟩ := by
            simp [execLoop, htask, hterm, hstopped]
          rw [hred] at hF
          simp only at hF
          rw [hts] at hF
          by_cases hji : j = i
          · subst hji
            rw [getI_setL_self s.tasks j t4 hi0 hilt] at hF
            cases hF
            obtain ⟨-, -, ht4⟩ := hstop hstopped
            rcases ht4 with h | h
            · exact Or.inr (Or.inl h)
            · exact Or.inr (Or.inr h)
          · rw [getI_setL_ne s.tasks i j t4 hi0 hji] at hF
            rw [h0] at hF
            cases hF
            exact taskEvolve_refl t0
        | false =>
          have hred : execLoop env (fuel + 1) i s sys calls =
              execLoop env fuel (i + 1) (processTask env i task s sys).state
                (processTask env i task s sys).sys
                (calls ++ (if (processTask env i task s sys).called then [i] else [])) := by
            simp [execLoop, htask, hterm, hstopped]
          rw [hred] at hF
          obtain ⟨-, -, ht4s, ht4c⟩ := hcont hstopped
          by_cases hji : j = i
          · subst hji
            have hmid : getI (processTask env j task s sys).state.tasks j = some t4 := by
              rw [hts]
              exact getI_setL_self s.tasks j t4 hi0 hilt
            have h2 := ih (j + 1) _ _ _ j t4 tF hmid hF
            exact taskEvolve_trans (Or.inr (Or.inr ⟨ht4s, ht4c⟩)) h2
          · have hmid : getI (processTask env i task s sys).state.tasks j = some t0 := by
              rw [hts]
              rw [getI_setL_ne s.tasks i j t4 hi0 hji]
              exact h0
            exact ih (i + 1) _ _ _ j t0 tF hmid hF

/-! ## Post-loop facts -/

theorem postLoop_tasks (s : WorkflowState) : (postLoop s).tasks = s.tasks := by
  unfold postLoop
  repeat' split
  all_goals rfl

theorem postLoop_idx (s : WorkflowState) :
    (postLoop s).currentTaskIndex = s.currentTaskIndex := by
  unfold postLoop
  repeat' split
  all_goals rfl

/-! ## Further helpers -/

theorem getI_setL_eventually (l : List Task) (i : Int) (t tf : Task)
    (h : getI (l.set i.toNat t) i = some tf) : tf = t := by
  have h0 := getI_pos _ _ _ h
  have hl := getI_lt _ _ _ h
  rw [List.length_set] at hl
  rw [getI_setL_self l i t h0 hl] at h
  exact (Option.some_inj.mp h).symm

theorem postLoop_failed (s : WorkflowState) (h : s.status = WfStatus.failed) :
    postLoop s = s := by
  unfold postLoop
  rw [if_neg (by simp [h]), if_neg (by simp [h])]

theorem planWorkflow_idx (env : Env) (s : WorkflowState) (sys : Sys) :
    ((planWorkflow env s sys).1).currentTaskIndex = s.currentTaskIndex := by
  simp only [planWorkflow]
  repeat' split
  all_goals rfl

/-! ## Claim 7 -/

/-- C7 (counterexample): on an empty task list with the workflow already
`failed` (the state `plan()` leaves behind on a planning failure),
`executeWorkflow` terminates with status `failed`, not `completed`. -/
theorem claim7_counterexample :
    stateC7f.tasks = [] ∧
    (executeWorkflow envNone stateC7f ⟨0, 0⟩).state.status = WfStatus.failed ∧
    (executeWorkflow envNone stateC7f ⟨0, 0⟩).state.status ≠ WfStatus.completed := by
  decide

/-- C7 (amended): for every workflow whose task list is empty and whose
status is not already `failed`, `executeWorkflow` terminates with workflow
status `completed`. -/
theorem claim7_amended (env : Env) (s : WorkflowState) (sys : Sys)
    (h1 : s.tasks = []) (h2 : s.status ≠ WfStatus.failed) :
    (executeWorkflow env s sys).state.status = WfStatus.completed := by
  unfold executeWorkflow
  rw [if_pos (⟨by rw [h1]; rfl, h2⟩ : s.tasks.length = 0 ∧ s.status ≠ WfStatus.failed)]

/-- C7 (witness): a concrete empty pending workflow completes. -/
theorem claim7_witness :
    stateC7p.tasks = [] ∧ stateC7p.status ≠ WfStatus.failed ∧
    (executeWorkflow envNone stateC7p ⟨0, 0⟩).state.status = WfStatus.completed :=
  ⟨rfl, by decide, claim7_amended envNone stateC7p ⟨0, 0⟩ rfl (by decide)⟩

/-! ## Claim 2 -/

/-- C2 (counterexample): `processTurn` on a workflow whose tasks are all
completed, with a planner that returns an empty new plan, produces a state
whose `currentTaskIndex` is `-1` — outside `[0, tasks.length]`. -/
theorem claim2_counterexample :
    (processTurn envC2 "more" stateC2 ⟨0, 0⟩).state.currentTaskIndex = -1 ∧
    ¬(0 ≤ (processTurn envC2 "more" stateC2 ⟨0, 0⟩).state.currentTaskIndex) := by
  decide

/-- C2 (amended): the invariant `0 ≤ currentTaskIndex ≤ tasks.length` holds
for a freshly constructed workflow, is established by `plan()` when called
with the cursor at 0 (its fresh-workflow precondition), and is preserved by
`executeWorkflow` (which then also does not crash); `processTurn` is the
exception, as the counterexample shows. -/
theorem claim2_amended :
    (∀ input sys, 0 ≤ ((newWorkflow input sys).1).currentTaskIndex ∧
      ((newWorkflow input sys).1).currentTaskIndex ≤
        ((((newWorkflow input sys).1).tasks.length : Int))) ∧
    (∀ env s sys, s.currentTaskIndex = 0 →
      0 ≤ ((planWorkflow env s sys).1).currentTaskIndex ∧
      ((planWorkflow env s sys).1).currentTaskIndex ≤
        ((((planWorkflow env s sys).1).tasks.length : Int))) ∧
    (∀ env s sys, 0 ≤ s.currentTaskIndex → s.currentTaskIndex ≤ (s.tasks.length : Int) →
      (executeWorkflow env s sys).crashed = false ∧
      0 ≤ (executeWorkflow env s sys).state.currentTaskIndex ∧
      (executeWorkflow env s sys).state.currentTaskIndex ≤
        (((executeWorkflow env s sys).state.tasks.length : Int))) := by
  refine ⟨?_, ?_, ?_⟩
  · intro input sys
    simp [newWorkflow]
  · intro env s sys h
    rw [planWorkflow_idx, h]
    constructor
    · omega
    · omega
  · intro env s sys h0 h1
    simp only [executeWorkflow]
    by_cases hb1 : s.tasks.length = 0 ∧ s.status ≠ WfStatus.failed
    · rw [if_pos hb1]
      exact ⟨rfl, h0, h1⟩
    · rw [if_neg hb1]
      by_cases hb2 : s.status = WfStatus.completed ∨ s.status = WfStatus.failed
      · rw [if_pos hb2]
        exact ⟨rfl, h0, h1⟩
      · rw [if_neg hb2]
        have key := execLoop_inv env ((s.tasks.length : Int) - s.currentTaskIndex).toNat
          s.currentTaskIndex { s with status := WfStatus.running } sys []
          h0 (by simp; omega) (by simpa using h0) (by simpa using h1)
        rw [if_neg (by simp [key.1])]
        refine ⟨key.1, ?_, ?_⟩
        · simpa [postLoop_idx] using key.2.2.1
        · have h2 := key.2.2.2
          have h3 := key.2.1
          simp only at h2 h3
          simpa [postLoop_idx, postLoop_tasks, h3] using h2

/-- C2 (witness): the invariant-preservation clause at a concrete run. -/
theorem claim2_witness :
    0 ≤ stateC1.currentTaskIndex ∧ stateC1.currentTaskIndex ≤ (stateC1.tasks.length : Int) ∧
    ((executeWorkflow envC1 stateC1 ⟨0, 0⟩).crashed = false ∧
      0 ≤ (executeWorkflow envC1 stateC1 ⟨0, 0⟩).state.currentTaskIndex ∧
      (executeWorkflow envC1 stateC1 ⟨0, 0⟩).state.currentTaskIndex ≤
        (((executeWorkflow envC1 stateC1 ⟨0, 0⟩).state.tasks.length : Int))) :=
  ⟨by decide, by decide,
    claim2_amended.2.2 envC1 stateC1 ⟨0, 0⟩ (by decide) (by decide)⟩

/-! ## Claim 6 -/

/-- C6: during `executeWorkflow`, `agent.execute` is never invoked for a
task that is already `completed` or already `failed` when the call starts
(and hence when the loop reaches it, as indices are visited at most once and
statuses are only written at the visited index). -/
theorem claim6_theorem (env : Env) (s : WorkflowState) (sys : Sys) (j : Int) (t : Task)
    (hj : getI s.tasks j = some t)
    (hterm : t.status = TaskStatus.completed ∨ t.status = TaskStatus.failed) :
    j ∉ (executeWorkflow env s sys).calls := by
  simp only [executeWorkflow]
  by_cases hb1 : s.tasks.length = 0 ∧ s.status ≠ WfStatus.failed
  · rw [if_pos hb1]
    simp
  · rw [if_neg hb1]
    by_cases hb2 : s.status = WfStatus.completed ∨ s.status = WfStatus.failed
    · rw [if_pos hb2]
      simp
    · rw [if_neg hb2]
      obtain ⟨new, hnew, hprop⟩ := execLoop_calls env
        ((s.tasks.length : Int) - s.currentTaskIndex).toNat s.currentTaskIndex
        { s with status := WfStatus.running } sys []
      have hcalls : (if (execLoop env ((s.tasks.length : Int) - s.currentTaskIndex).toNat
          s.currentTaskIndex { s with status := WfStatus.running } sys []).crashed then
            (execLoop env ((s.tasks.length : Int) - s.currentTaskIndex).toNat
              s.currentTaskIndex { s with status := WfStatus.running } sys [])
          else
            { execLoop env ((s.tasks.length : Int) - s.currentTaskIndex).toNat
                s.currentTaskIndex { s with status := WfStatus.running } sys [] with
              state := postLoop (execLoop env ((s.tasks.length : Int) - s.currentTaskIndex).toNat
                s.currentTaskIndex { s with status := WfStatus.running } sys []).state }).calls =
          (execLoop env ((s.tasks.length : Int) - s.currentTaskIndex).toNat
            s.currentTaskIndex { s with status := WfStatus.running } sys []).calls := by
        split <;> rfl
      rw [hcalls, hnew]
      intro hmem
      rw [List.nil_append] at hmem
      obtain ⟨-, t', hgt, hterm'⟩ := hprop j hmem
      have hgt' : getI s.tasks j = some t' := hgt
      rw [hj] at hgt'
      cases hgt'
      exact hterm' hterm

/-- C6 (witness): resuming with a completed task at index 0 never invokes
its agent. -/
theorem claim6_witness :
    getI stateResume.tasks 0 = some taskDone ∧
    (taskDone.status = TaskStatus.completed ∨ taskDone.status = TaskStatus.failed) ∧
    (0 : Int) ∉ (executeWorkflow envC8 stateResume ⟨0, 0⟩).calls :=
  ⟨by decide, by decide,
    claim6_theorem envC8 stateResume ⟨0, 0⟩ 0 taskDone (by decide) (by decide)⟩

/-! ## Claim 8 -/

/-- C8 (counterexample): a task that fails through a failure-flagged agent
result reaches the terminal status `failed` with `completedAt` still unset. -/
theorem claim8_counterexample :
    (getI (executeWorkflow envC8 stateOne ⟨0, 0⟩).state.tasks 0).map
        (fun t => (t.status, t.completedAt)) = some (TaskStatus.failed, none) := by
  decide

/-- C8 (amended): every task that transitions from a non-terminal status to
`completed` during an `executeWorkflow` call has its `completedAt` timestamp
set when the call returns.  (Failed tasks may lack it: only the
thrown-exception and missing-agent failure paths stamp it.) -/
theorem claim8_amended (env : Env) (s : WorkflowState) (sys : Sys) (j : Int) (t0 tF : Task)
    (h0 : getI s.tasks j = some t0)
    (hF : getI (executeWorkflow env s sys).state.tasks j = some tF)
    (hnt : t0.status = TaskStatus.pending ∨ t0.status = TaskStatus.running)
    (hc : tF.status = TaskStatus.completed) :
    tF.completedAt.isSome = true := by
  simp only [executeWorkflow] at hF
  by_cases hb1 : s.tasks.length = 0 ∧ s.status ≠ WfStatus.failed
  · rw [if_pos hb1] at hF
    have hF' : getI s.tasks j = some tF := hF
    rw [h0] at hF'
    cases hF'
    rcases hnt with h | h <;> rw [h] at hc <;> cases hc
  · rw [if_neg hb1] at hF
    by_cases hb2 : s.status = WfStatus.completed ∨ s.status = WfStatus.failed
    · rw [if_pos hb2] at hF
      have hF' : getI s.tasks j = some tF := hF
      rw [h0] at hF'
      cases hF'
      rcases hnt with h | h <;> rw [h] at hc <;> cases hc
    · rw [if_neg hb2] at hF
      have hcalls : ∀ L : LoopOut, ((if L.crashed then L else
          { L with state := postLoop L.state }).state).tasks = L.state.tasks := by
        intro L
        split
        · rfl
        · simp [postLoop_tasks]
      rw [hcalls] at hF
      have h0' : getI ({ s with status := WfStatus.running } : WorkflowState).tasks j =
          some t0 := h0
      have hev := execLoop_evolve env ((s.tasks.length : Int) - s.currentTaskIndex).toNat
        s.currentTaskIndex { s with status := WfStatus.running } sys [] j t0 tF h0' hF
      rcases hev with h | h | h
      · rw [h] at hc
        rcases hnt with h2 | h2 <;> rw [h2] at hc <;> cases hc
      · rw [hc] at h
        cases h
      · exact h.2

/-- C8 (witness): a completing run stamps `completedAt`. -/
theorem claim8_witness :
    getI stateOne.tasks 0 = some taskC1a ∧
    (∃ tF, getI (executeWorkflow envOk stateOne ⟨0, 0⟩).state.tasks 0 = some tF ∧
      tF.status = TaskStatus.completed ∧ tF.completedAt.isSome = true) := by
  refine ⟨by decide, ?_⟩
  cases hF : getI (executeWorkflow envOk stateOne ⟨0, 0⟩).state.tasks 0 with
  | none => exact absurd hF (by decide)
  | some tF =>
    have hst : tF.status = TaskStatus.completed := by
      have : (getI (executeWorkflow envOk stateOne ⟨0, 0⟩).state.tasks 0).map
          (fun t => t.status) = some TaskStatus.completed := by decide
      rw [hF] at this
      simpa using this
    exact ⟨tF, rfl, hst,
      claim8_amended envOk stateOne ⟨0, 0⟩ 0 taskC1a tF (by decide) hF (by decide) hst⟩

/-! ## Claim 10 -/

/-- C10: when the agent returns a failure-flagged result that carries
`sharedContextUpdates`, the loop-body step merges those updates into
`sharedContext` before marking the task failed and breaking out of the loop
(`stopped = true`). -/
theorem claim10_theorem (env : Env) (i : Int) (task : Task) (s : WorkflowState) (sys : Sys)
    (b : Task → WorkflowState → AgentResult) (out : AgentOutput) (u : CtxUpdates)
    (hreg : env.agents task.agentName = some b)
    (hbeh : ∀ t st, b t st = AgentResult.returned out)
    (hfail : out.status = AOStatus.failure)
    (hupd : out.sharedContextUpdates = some u) :
    (processTask env i task s sys).stopped = true ∧
    (processTask env i task s sys).state.sharedContext = mergeCtx s.sharedContext u ∧
    (processTask env i task s sys).state.status = WfStatus.failed ∧
    ∀ tf, getI (processTask env i task s sys).state.tasks i = some tf →
      tf.status = TaskStatus.failed := by
  cases hS : task.startedAt <;>
  · unfold processTask
    simp only [hS]
    refine ⟨?_, ?_, ?_, ?_⟩
    · simp [hreg, hbeh, hfail]
    · simp [hreg, hbeh, hfail, hupd, WorkflowState.setTask]
    · simp [hreg, hbeh, hfail]
    · intro tf htf
      simp only [hreg, hbeh, hfail] at htf
      simp [WorkflowState.setTask, List.set_set] at htf
      have h3 := getI_setL_eventually _ _ _ _ htf
      rw [h3]

/-- C10 (witness): concrete failure result with updates. -/
theorem claim10_witness :
    (processTask envC10 0 taskC1a stateOne ⟨0, 0⟩).stopped = true ∧
    (processTask envC10 0 taskC1a stateOne ⟨0, 0⟩).state.sharedContext =
      mergeCtx stateOne.sharedContext updC10 ∧
    (processTask envC10 0 taskC1a stateOne ⟨0, 0⟩).state.status = WfStatus.failed := by
  have h := claim10_theorem envC10 0 taskC1a stateOne ⟨0, 0⟩ bC10 outC10 updC10
    rfl (fun _ _ => rfl) rfl rfl
  exact ⟨h.1, h.2.1, h.2.2.1⟩

/-! ## Claim 1 -/

/-- C1 (counterexample): in the two-task scenario where the action
collaborator reports the `ShellAgent` action as failed, the second task does
reach the terminal status `failed`, but the workflow ends with
`currentTaskIndex = 1`, not `2`: the failure paths break out of the loop
before the cursor-advance statement runs. -/
theorem claim1_counterexample :
    (getI (executeWorkflow envC1 stateC1 ⟨0, 0⟩).state.tasks 1).map (fun t => t.status) =
      some TaskStatus.failed ∧
    (executeWorkflow envC1 stateC1 ⟨0, 0⟩).state.currentTaskIndex = 1 ∧
    (executeWorkflow envC1 stateC1 ⟨0, 0⟩).state.currentTaskIndex ≠ 2 := by
  decide

/-- C1 (amended): a task that completes advances `currentTaskIndex` to one
past its index before the loop continues; a task that fails stops the loop
with `currentTaskIndex` unchanged (the dead advance-then-break path would
require the workflow to have been failed already).  In the failed-action
scenario the workflow therefore ends with `currentTaskIndex = 1`, the failed
task's own index. -/
theorem claim1_amended :
    ((executeWorkflow envC1 stateC1 ⟨0, 0⟩).state.currentTaskIndex = 1 ∧
      (executeWorkflow envC1 stateC1 ⟨0, 0⟩).state.status = WfStatus.failed ∧
      (getI (executeWorkflow envC1 stateC1 ⟨0, 0⟩).state.tasks 1).map
        (fun t => (t.status, t.error)) = some (TaskStatus.failed, some "exit code 1")) ∧
    (∀ env (i : Int) task s sys, (processTask env i task s sys).stopped = false →
      (processTask env i task s sys).state.currentTaskIndex = i + 1) ∧
    (∀ env (i : Int) task s sys, s.status ≠ WfStatus.failed →
      (processTask env i task s sys).stopped = true →
      (processTask env i task s sys).state.currentTaskIndex = s.currentTaskIndex) := by
  refine ⟨by decide, ?_, ?_⟩
  · intro env i task s sys hcont
    obtain ⟨t4, -, hcontf, -⟩ := processTask_shape env i task s sys
    exact (hcontf hcont).1
  · intro env i task s sys hns hstop
    obtain ⟨t4, -, -, hstopf⟩ := processTask_shape env i task s sys
    obtain ⟨-, hidx, -⟩ := hstopf hstop
    rcases hidx with h | ⟨-, hf⟩
    · exact h
    · exact absurd hf hns

/-- C1 (witness): the no-advance-on-failure clause at a concrete input. -/
theorem claim1_witness :
    stateOne.status ≠ WfStatus.failed ∧
    (processTask envC8 0 taskC1a stateOne ⟨0, 0⟩).stopped = true ∧
    (processTask envC8 0 taskC1a stateOne ⟨0, 0⟩).state.currentTaskIndex =
      stateOne.currentTaskIndex :=
  ⟨by decide, by decide,
    claim1_amended.2.2 envC8 0 taskC1a stateOne ⟨0, 0⟩ (by decide) (by decide)⟩

/-! ## Claim 5: first failing agent stops the loop -/

/-- A success-flagged result with no (truthy) action directive continues the
loop. -/
theorem processTask_success_stopped_false (env : Env) (i : Int) (task : Task)
    (s : WorkflowState) (sys : Sys) (b : Task → WorkflowState → AgentResult) (out : AgentOutput)
    (hreg : env.agents task.agentName = some b)
    (hbeh : ∀ t st, b t st = AgentResult.returned out)
    (hsucc : out.status = AOStatus.success)
    (hact : jsTruthyStr out.actionString = false)
    (hst : s.status ≠ WfStatus.failed) :
    (processTask env i task s sys).stopped = false := by
  cases hS : task.startedAt <;>
  · unfold processTask completeAdvance
    simp only [hS]
    simp [hreg, hbeh, hsucc, hact, WorkflowState.setTask, beq_eq_false_iff_ne, hst]

/-- An agent that throws `m` or returns a failure-flagged result with error
`m` (non-empty) stops the loop, fails the workflow, leaves the cursor alone,
and records `m` verbatim on the task. -/
theorem processTask_fail_spec (env : Env) (i : Int) (task : Task) (s : WorkflowState)
    (sys : Sys) (m : String) (hm : m ≠ "")
    (hfail : failsWith env task.agentName m) :
    (processTask env i task s sys).stopped = true ∧
    (processTask env i task s sys).state.status = WfStatus.failed ∧
    (processTask env i task s sys).state.currentTaskIndex = s.currentTaskIndex ∧
    ∃ tf, (processTask env i task s sys).state.tasks = s.tasks.set i.toNat tf ∧
      tf.status = TaskStatus.failed ∧ tf.error = some m := by
  obtain ⟨b, hreg, hcase⟩ := hfail
  rcases hcase with hthrown | ⟨out, hbeh, hofail, herr⟩
  · cases hS : task.startedAt <;>
    · unfold processTask
      simp only [hS]
      refine ⟨by simp [hreg, hthrown], by simp [hreg, hthrown],
        by simp [hreg, hthrown, WorkflowState.setTask], ?_⟩
      exact ⟨_, by simp [hreg, hthrown, WorkflowState.setTask, List.set_set] <;> rfl,
        by simp, by simp [jsOr, hm]⟩
  · cases hS : task.startedAt <;>
    · unfold processTask
      simp only [hS]
      refine ⟨by simp [hreg, hbeh, hofail], by simp [hreg, hbeh, hofail],
        by simp [hreg, hbeh, hofail, WorkflowState.setTask], ?_⟩
      exact ⟨_, by simp [hreg, hbeh, hofail, WorkflowState.setTask, List.set_set] <;> rfl,
        by simp, by simp [herr, jsOr, hm]⟩

/-- The chain lemma: starting at index `i` in a running workflow, `n` tasks
whose agents succeed without a directive followed by a task whose agent
fails with message `m` drive the loop to: workflow failed, task `i + n`
failed with `m` verbatim, every later task untouched, and no agent invoked
past index `i + n`. -/
theorem execLoop_first_failure (env : Env) (m : String) (hm : m ≠ "") :
    ∀ (n fuel i : Nat) (s : WorkflowState) (sys : Sys) (calls : List Int),
    s.status = WfStatus.running →
    n < fuel →
    (∀ j : Nat, j < n → ∃ tj, getI s.tasks ((i : Int) + (j : Int)) = some tj ∧
      (tj.status = TaskStatus.pending ∨ tj.status = TaskStatus.running) ∧
      succeedsPlain env tj.agentName) →
    (∃ tk, getI s.tasks ((i : Int) + (n : Int)) = some tk ∧
      (tk.status = TaskStatus.pending ∨ tk.status = TaskStatus.running) ∧
      failsWith env tk.agentName m) →
    (execLoop env fuel (i : Int) s sys calls).crashed = false ∧
    (execLoop env fuel (i : Int) s sys calls).state.status = WfStatus.failed ∧
    (∃ tf, getI (execLoop env fuel (i : Int) s sys calls).state.tasks ((i : Int) + (n : Int)) =
      some tf ∧ tf.status = TaskStatus.failed ∧ tf.error = some m) ∧
    (∀ j : Int, (i : Int) + (n : Int) < j →
      getI (execLoop env fuel (i : Int) s sys calls).state.tasks j = getI s.tasks j) ∧
    (∀ x ∈ (execLoop env fuel (i : Int) s sys calls).calls,
      x ∈ calls ∨ x ≤ (i : Int) + (n : Int)) := by
  intro n
  induction n with
  | zero =>
    intro fuel i s sys calls hst hfuel hbetween hfailt
    obtain ⟨tk, htk, htkst, htkf⟩ := hfailt
    have htk' : getI s.tasks (i : Int) = some tk := by simpa using htk
    have hterm : ¬(tk.status = TaskStatus.completed ∨ tk.status = TaskStatus.failed) := by
      rcases htkst with h | h <;> simp [h]
    obtain ⟨fuel', rfl⟩ : ∃ f', fuel = f' + 1 := ⟨fuel - 1, by omega⟩
    have hspec := processTask_fail_spec env (i : Int) tk s sys m hm htkf
    have hred : execLoop env (fuel' + 1) (i : Int) s sys calls =
        ⟨(processTask env (i : Int) tk s sys).state, (processTask env (i : Int) tk s sys).sys,
          calls ++ (if (processTask env (i : Int) tk s sys).called then [(i : Int)] else []),
          false⟩ := by
      simp [execLoop, htk', hterm, hspec.1]
    rw [hred]
    obtain ⟨tf, hts, hfst, hferr⟩ := hspec.2.2.2
    have hi0 : (0 : Int) ≤ (i : Int) := by omega
    have hilt : (i : Int) < (s.tasks.length : Int) := getI_lt _ _ _ htk'
    refine ⟨rfl, hspec.2.1, ⟨tf, ?_, hfst, hferr⟩, ?_, ?_⟩
    · have : getI (processTask env (i : Int) tk s sys).state.tasks (i : Int) = some tf := by
        rw [hts]
        exact getI_setL_self s.tasks (i : Int) tf hi0 hilt
      simpa using this
    · intro j hj
      rw [hts]
      exact getI_setL_ne s.tasks (i : Int) j tf hi0 (by omega)
    · intro x hx
      rcases List.mem_append.mp hx with hx | hx
      · exact Or.inl hx
      · rcases Bool.eq_false_or_eq_true (processTask env (i : Int) tk s sys).called with h | h <;>
          simp [h] at hx
        subst hx
        omega
  | succ n ih =>
    intro fuel i s sys calls hst hfuel hbetween hfailt
    obtain ⟨t0, ht0, ht0st, ht0sp⟩ := hbetween 0 (by omega)
    have ht0' : getI s.tasks (i : Int) = some t0 := by simpa using ht0
    have hi0 : (0 : Int) ≤ (i : Int) := by omega
    have hilt : (i : Int) < (s.tasks.length : Int) := getI_lt _ _ _ ht0'
    obtain ⟨b, out, hreg, hbeh, hsucc, hact⟩ := ht0sp
    have hnstop := processTask_success_stopped_false env (i : Int) t0 s sys b out hreg hbeh
      hsucc hact (by rw [hst]; intro h; cases h)
    have hterm : ¬(t0.status = TaskStatus.completed ∨ t0.status = TaskStatus.failed) := by
      rcases ht0st with h | h <;> simp [h]
    obtain ⟨fuel', rfl⟩ : ∃ f', fuel = f' + 1 := ⟨fuel - 1, by omega⟩
    have hred : execLoop env (fuel' + 1) (i : Int) s sys calls =
        execLoop env fuel' ((i : Int) + 1) (processTask env (i : Int) t0 s sys).state
          (processTask env (i : Int) t0 s sys).sys
          (calls ++ (if (processTask env (i : Int) t0 s sys).called then [(i : Int)] else [])) := by
      simp [execLoop, ht0', hterm, hnstop]
    obtain ⟨t4, hts, hcontf, -⟩ := processTask_shape env (i : Int) t0 s sys
    obtain ⟨hidx, hstat, -, -⟩ := hcontf hnstop
    have hcast : (((i + 1 : Nat) : Int)) = (i : Int) + 1 := by push_cast; ring
    have hbetween' : ∀ j : Nat, j < n →
        ∃ tj, getI (processTask env (i : Int) t0 s sys).state.tasks
          (((i + 1 : Nat) : Int) + (j : Int)) = some tj ∧
          (tj.status = TaskStatus.pending ∨ tj.status = TaskStatus.running) ∧
          succeedsPlain env tj.agentName := by
      intro j hj
      obtain ⟨tj, htj, htjst, htjsp⟩ := hbetween (j + 1) (by omega)
      refine ⟨tj, ?_, htjst, htjsp⟩
      rw [hts, getI_setL_ne s.tasks (i : Int) _ t4 hi0 (by push_cast; omega)]
      have : (((i + 1 : Nat) : Int)) + (j : Int) = (i : Int) + ((j + 1 : Nat) : Int) := by
        push_cast; ring
      rw [this]
      exact htj
    have hfailt' : ∃ tk, getI (processTask env (i : Int) t0 s sys).state.tasks
        (((i + 1 : Nat) : Int) + (n : Int)) = some tk ∧
        (tk.status = TaskStatus.pending ∨ tk.status = TaskStatus.running) ∧
        failsWith env tk.agentName m := by
      obtain ⟨tk, htk, htkst, htkf⟩ := hfailt
      refine ⟨tk, ?_, htkst, htkf⟩
      rw [hts, getI_setL_ne s.tasks (i : Int) _ t4 hi0 (by push_cast; omega)]
      have : (((i + 1 : Nat) : Int)) + (n : Int) = (i : Int) + ((n + 1 : Nat) : Int) := by
        push_cast; ring
      rw [this]
      exact htk
    have hIH := ih fuel' (i + 1) (processTask env (i : Int) t0 s sys).state
      (processTask env (i : Int) t0 s sys).sys
      (calls ++ (if (processTask env (i : Int) t0 s sys).called then [(i : Int)] else []))
      (by rw [hstat]; exact hst) (by omega) hbetween' hfailt'
    rw [hcast] at hIH
    rw [hred]
    have hidxcast : ((i : Int) + 1) + (n : Int) = (i : Int) + ((n + 1 : Nat) : Int) := by
      push_cast; ring
    rw [hidxcast] at hIH
    refine ⟨hIH.1, hIH.2.1, hIH.2.2.1, ?_, ?_⟩
    · intro j hj
      rw [hIH.2.2.2.1 j hj]
      rw [hts]
      exact getI_setL_ne s.tasks (i : Int) j t4 hi0 (by push_cast at hj ⊢; omega)
    · intro x hx
      rcases hIH.2.2.2.2 x hx with h | h
      · rcases List.mem_append.mp h with h2 | h2
        · exact Or.inl h2
        · rcases Bool.eq_false_or_eq_true (processTask env (i : Int) t0 s sys).called with
            hc | hc <;> simp [hc] at h2
          subst h2
          right
          push_cast
          omega
      · right
        push_cast at h ⊢
        omega

/-- C5: for every task sequence started fresh (cursor 0, tasks pending), if
the agents of the first `k` tasks succeed without directives and the agent
of task `k` throws or returns failure with a (non-empty) message `m`, then
the run ends with task `k` failed carrying `m` verbatim, the workflow
failed, every later task untouched (still pending), and no agent invoked
past index `k`. -/
theorem claim5_theorem (env : Env) (s : WorkflowState) (sys : Sys) (k : Nat) (m : String)
    (hm : m ≠ "")
    (hidx : s.currentTaskIndex = 0)
    (hs1 : s.status ≠ WfStatus.completed) (hs2 : s.status ≠ WfStatus.failed)
    (hbetween : ∀ j : Nat, j < k → ∃ tj, getI s.tasks (j : Int) = some tj ∧
      tj.status = TaskStatus.pending ∧ succeedsPlain env tj.agentName)
    (hfailt : ∃ tk, getI s.tasks (k : Int) = some tk ∧ tk.status = TaskStatus.pending ∧
      failsWith env tk.agentName m) :
    (executeWorkflow env s sys).crashed = false ∧
    (executeWorkflow env s sys).state.status = WfStatus.failed ∧
    (∃ tf, getI (executeWorkflow env s sys).state.tasks (k : Int) = some tf ∧
      tf.status = TaskStatus.failed ∧ tf.error = some m) ∧
    (∀ j : Int, (k : Int) < j →
      getI (executeWorkflow env s sys).state.tasks j = getI s.tasks j) ∧
    (∀ x ∈ (executeWorkflow env s sys).calls, x ≤ (k : Int)) := by
  have hklen : (k : Int) < (s.tasks.length : Int) := by
    obtain ⟨tk, htk, -, -⟩ := hfailt
    exact getI_lt _ _ _ htk
  have hlen0 : ¬(s.tasks.length = 0 ∧ s.status ≠ WfStatus.failed) := by
    rintro ⟨h, -⟩
    omega
  have hterm2 : ¬(s.status = WfStatus.completed ∨ s.status = WfStatus.failed) := by
    rintro (h | h)
    · exact hs1 h
    · exact hs2 h
  simp only [executeWorkflow]
  rw [if_neg hlen0, if_neg hterm2, hidx]
  have hfuel : ((s.tasks.length : Int) - 0).toNat = s.tasks.length := by omega
  rw [hfuel]
  have hrun : ({ s with currentTaskIndex := 0, status := WfStatus.running } :
      WorkflowState).status = WfStatus.running := rfl
  have hbetween' : ∀ j : Nat, j < k →
      ∃ tj, getI ({ s with currentTaskIndex := 0, status := WfStatus.running } :
        WorkflowState).tasks (((0 : Nat) : Int) + (j : Int)) = some tj ∧
        (tj.status = TaskStatus.pending ∨ tj.status = TaskStatus.running) ∧
        succeedsPlain env tj.agentName := by
    intro j hj
    obtain ⟨tj, htj, htjst, htjsp⟩ := hbetween j hj
    exact ⟨tj, by simpa using htj, Or.inl htjst, htjsp⟩
  have hfailt' : ∃ tk, getI ({ s with currentTaskIndex := 0, status := WfStatus.running } :
      WorkflowState).tasks (((0 : Nat) : Int) + (k : Int)) = some tk ∧
      (tk.status = TaskStatus.pending ∨ tk.status = TaskStatus.running) ∧
      failsWith env tk.agentName m := by
    obtain ⟨tk, htk, htkst, htkf⟩ := hfailt
    exact ⟨tk, by simpa using htk, Or.inl htkst, htkf⟩
  have key := execLoop_first_failure env m hm k s.tasks.length 0
    { s with currentTaskIndex := 0, status := WfStatus.running } sys [] hrun (by omega)
    hbetween' hfailt'
  have hz : (((0 : Nat) : Int)) = (0 : Int) := rfl
  rw [hz] at key
  simp only [Int.zero_add, zero_add] at key
  rw [if_neg (by simp [key.1])]
  have hpost : postLoop (execLoop env s.tasks.length 0
      { s with currentTaskIndex := 0, status := WfStatus.running } sys []).state =
      (execLoop env s.tasks.length 0
        { s with currentTaskIndex := 0, status := WfStatus.running } sys []).state :=
    postLoop_failed _ key.2.1
  refine ⟨key.1, ?_, ?_, ?_, ?_⟩
  · simpa [hpost] using key.2.1
  · simpa [hpost] using key.2.2.1
  · intro j hj
    have := key.2.2.2.1 j hj
    simpa [hpost] using this
  · intro x hx
    have hx' : x ∈ (execLoop env s.tasks.length 0
        { s with currentTaskIndex := 0, status := WfStatus.running } sys []).calls := hx
    rcases key.2.2.2.2 x hx' with h | h
    · cases h
    · exact h

/-- C5 (witness): three tasks, the second one failing with message `boom`. -/
theorem claim5_witness :
    (∃ tf, getI (executeWorkflow envC5 stateC5 ⟨0, 0⟩).state.tasks 1 = some tf ∧
      tf.status = TaskStatus.failed ∧ tf.error = some "boom") ∧
    (∀ j : Int, (1 : Int) < j →
      getI (executeWorkflow envC5 stateC5 ⟨0, 0⟩).state.tasks j = getI stateC5.tasks j) ∧
    (∀ x ∈ (executeWorkflow envC5 stateC5 ⟨0, 0⟩).calls, x ≤ (1 : Int)) := by
  have h := claim5_theorem envC5 stateC5 ⟨0, 0⟩ 1 "boom" (by decide) (by decide)
    (by decide) (by decide)
    (by
      intro j hj
      have hj0 : j = 0 := by omega
      subst hj0
      exact ⟨taskC5a, by decide, by decide,
        ⟨bC5a, outSuccessA, rfl, fun _ _ => rfl, rfl, rfl⟩⟩)
    ⟨taskC5b, by decide, by decide,
      ⟨bC5b, rfl, Or.inr ⟨outFailB, fun _ _ => rfl, rfl, rfl⟩⟩⟩
  exact ⟨h.2.2.1, h.2.2.2.1, h.2.2.2.2⟩


/-! ## Claim 4 -/

/-- `findIndex` finds no index exactly when no element satisfies the
predicate. -/
theorem findIdxO_none {α : Type} (p : α → Bool) (l : List α)
    (h : ∀ a ∈ l, p a = false) : findIdxO p l = none := by
  induction l with
  | nil => rfl
  | cons a l ih =>
    simp only [findIdxO]
    rw [h a (by simp)]
    simp [ih (fun b hb => h b (by simp [hb]))]

/-- `findIndex` returns the position of the first satisfying element. -/
theorem findIdxO_first {α : Type} (p : α → Bool) :
    ∀ (l : List α) (i : Nat) (a : α), l.get? i = some a → p a = true →
    (∀ j, j < i → ∀ b, l.get? j = some b → p b = false) →
    findIdxO p l = some i := by
  intro l
  induction l with
  | nil => intro i a ha; simp at ha
  | cons x l ih =>
    intro i a ha hpa hmin
    cases i with
    | zero =>
      simp only [List.get?] at ha
      cases ha
      simp [findIdxO, hpa]
    | succ j =>
      have hx : p x = false := hmin 0 (Nat.succ_pos j) x rfl
      have hrec := ih j a (by simpa using ha) hpa
        (fun k hk b hb => hmin (k + 1) (by omega) b (by simpa using hb))
      simp [findIdxO, hx, hrec]

/-- `pending`-or-`running` as a proposition implies the boolean test. -/
theorem prTest_true {t : Task}
    (h : t.status = TaskStatus.pending ∨ t.status = TaskStatus.running) :
    (t.status == TaskStatus.pending || t.status == TaskStatus.running) = true := by
  rcases h with h | h <;> simp [h]

theorem prTest_false {t : Task}
    (h : t.status ≠ TaskStatus.pending ∧ t.status ≠ TaskStatus.running) :
    (t.status == TaskStatus.pending || t.status == TaskStatus.running) = false := by
  cases hst : t.status <;> simp_all

/-- The cursor-reset expression of `processTurn` (lines 480-488) picks the
position of the first `pending`/`running` task when one exists. -/
theorem taskCursor_first (l : List Task) (i : Nat) (t : Task)
    (hget : l.get? i = some t)
    (hpr : t.status = TaskStatus.pending ∨ t.status = TaskStatus.running)
    (hmin : ∀ j, j < i → ∀ u, l.get? j = some u →
      u.status ≠ TaskStatus.pending ∧ u.status ≠ TaskStatus.running) :
    (if findIndexJS
         (fun t => t.status == TaskStatus.pending || t.status == TaskStatus.running) l = -1 ∧
         l.any (fun t => !(t.status == TaskStatus.completed)) = true
       then (0 : Int)
       else findIndexJS
         (fun t => t.status == TaskStatus.pending || t.status == TaskStatus.running) l) =
      (i : Int) := by
  have hfi : findIdxO
      (fun t => t.status == TaskStatus.pending || t.status == TaskStatus.running) l =
      some i :=
    findIdxO_first _ l i t hget (prTest_true hpr)
      (fun j hj u hu => prTest_false (hmin j hj u hu))
  have hidx : findIndexJS
      (fun t => t.status == TaskStatus.pending || t.status == TaskStatus.running) l =
      (i : Int) := by
    simp [findIndexJS, hfi]
  rw [hidx, if_neg]
  rintro ⟨h, _⟩
  omega

/-- The cursor-reset expression of `processTurn` falls back to 0 when no
task is `pending`/`running` but a non-`completed` task exists. -/
theorem taskCursor_fallback (l : List Task)
    (hnone : ∀ t ∈ l, t.status ≠ TaskStatus.pending ∧ t.status ≠ TaskStatus.running)
    (hex : ∃ t ∈ l, t.status ≠ TaskStatus.completed) :
    (if findIndexJS
         (fun t => t.status == TaskStatus.pending || t.status == TaskStatus.running) l = -1 ∧
         l.any (fun t => !(t.status == TaskStatus.completed)) = true
       then (0 : Int)
       else findIndexJS
         (fun t => t.status == TaskStatus.pending || t.status == TaskStatus.running) l) =
      0 := by
  have hfi : findIdxO
      (fun t => t.status == TaskStatus.pending || t.status == TaskStatus.running) l =
      none :=
    findIdxO_none _ l (fun a ha => prTest_false (hnone a ha))
  have hidx : findIndexJS
      (fun t => t.status == TaskStatus.pending || t.status == TaskStatus.running) l =
      -1 := by
    simp [findIndexJS, hfi]
  have hany : l.any (fun t => !(t.status == TaskStatus.completed)) = true := by
    obtain ⟨t, htl, hts⟩ := hex
    exact List.any_eq_true.mpr ⟨t, htl, by simp [hts]⟩
  rw [hidx, if_pos ⟨rfl, hany⟩]

/-- C4: when the planning agent of a `processTurn` call returns a success
output carrying a fresh plan, the replanning stage hands `executeWorkflow` a
state whose task list is exactly the previously completed tasks in their
original order followed by the freshly planned tasks, and whose
`currentTaskIndex` is the position of the first `pending`/`running` task,
falling back to 0 when no such task exists but a non-completed task does. -/
theorem claim4_theorem (env : Env)
    (behave : Task → WorkflowState → AgentResult) (userInput : String)
    (s0 : WorkflowState) (sys : Sys) (out : AgentOutput) (pts : List TaskBase)
    (henv : env.agents "PlanningAgent" = some behave)
    (hbeh : ∀ t st, behave t st = AgentResult.returned out)
    (hs : out.status = AOStatus.success)
    (hp : out.plannedTasks = some pts) :
    ∃ s1 sys1, processTurnPlan env userInput s0 sys = TurnStage.planned s1 sys1 ∧
      s1.tasks = s0.tasks.filter (fun t => t.status == TaskStatus.completed) ++
        pts.map TaskBase.toTask ∧
      (∀ (i : Nat) (t : Task), s1.tasks.get? i = some t →
        (t.status = TaskStatus.pending ∨ t.status = TaskStatus.running) →
        (∀ j : Nat, j < i → ∀ u : Task, s1.tasks.get? j = some u →
          u.status ≠ TaskStatus.pending ∧ u.status ≠ TaskStatus.running) →
        s1.currentTaskIndex = (i : Int)) ∧
      ((∀ t ∈ s1.tasks, t.status ≠ TaskStatus.pending ∧ t.status ≠ TaskStatus.running) →
        (∃ t ∈ s1.tasks, t.status ≠ TaskStatus.completed) →
        s1.currentTaskIndex = 0) := by
  have hcond : ¬(out.status = AOStatus.failure ∨ out.plannedTasks = none) := by
    rintro (h | h)
    · rw [hs] at h; cases h
    · rw [hp] at h; cases h
  simp only [processTurnPlan, henv, hbeh]
  rw [if_neg hcond]
  refine ⟨_, _, rfl, ?_, ?_, ?_⟩
  · simp [hp]
  · intro i t hget hpr hmin
    exact taskCursor_first _ i t hget hpr hmin
  · intro hnone hex
    exact taskCursor_fallback _ hnone hex

/-- C4 (witness): a concrete replanning over one completed and one failed
task, with a single fresh pending task planned. -/
theorem claim4_witness :
    ∃ s1 sys1, processTurnPlan envC4 "again" stateC4 ⟨0, 0⟩ = TurnStage.planned s1 sys1 ∧
      s1.tasks = stateC4.tasks.filter (fun t => t.status == TaskStatus.completed) ++
        [tbC4].map TaskBase.toTask ∧
      (∀ (i : Nat) (t : Task), s1.tasks.get? i = some t →
        (t.status = TaskStatus.pending ∨ t.status = TaskStatus.running) →
        (∀ j : Nat, j < i → ∀ u : Task, s1.tasks.get? j = some u →
          u.status ≠ TaskStatus.pending ∧ u.status ≠ TaskStatus.running) →
        s1.currentTaskIndex = (i : Int)) ∧
      ((∀ t ∈ s1.tasks, t.status ≠ TaskStatus.pending ∧ t.status ≠ TaskStatus.running) →
        (∃ t ∈ s1.tasks, t.status ≠ TaskStatus.completed) →
        s1.currentTaskIndex = 0) :=
  claim4_theorem envC4 bC4 "again" stateC4 ⟨0, 0⟩ outC4 [tbC4] rfl (fun _ _ => rfl) rfl rfl

/-! ## Claim 9 -/

/-- Decoding the decimal digits of `n` (most-significant first) recovers `n`,
for any accumulator. -/
theorem natDigitsRev_foldl (n : Nat) : ∀ a : Nat,
    ((natDigitsRev n).reverse).foldl (fun x c => x * 10 + (c.toNat - 48)) a =
      a * 10 ^ (natDigitsRev n).length + n := by
  induction n using Nat.strong_induction_on with
  | _ n ih =>
    intro a
    by_cases h : n = 0
    · subst h
      rw [natDigitsRev]
      simp
    · rw [natDigitsRev, dif_neg h]
      rw [List.reverse_cons, List.foldl_append]
      rw [ih (n / 10) (Nat.div_lt_self (Nat.pos_of_ne_zero h) (by omega)) a]
      have hc : (Char.ofNat (48 + n % 10)).toNat = 48 + n % 10 := by
        have hb : n % 10 < 10 := Nat.mod_lt _ (by omega)
        have hall : ∀ d, d < 10 → (Char.ofNat (48 + d)).toNat = 48 + d := by decide
        exact hall _ hb
      simp only [List.foldl_cons, List.foldl_nil, List.length_cons, hc]
      have h10 : 10 * (n / 10) + n % 10 = n := Nat.div_add_mod n 10
      calc (a * 10 ^ (natDigitsRev (n / 10)).length + n / 10) * 10 + (48 + n % 10 - 48)
          = (a * 10 ^ (natDigitsRev (n / 10)).length + n / 10) * 10 + n % 10 := by omega
        _ = a * (10 ^ (natDigitsRev (n / 10)).length * 10) + (10 * (n / 10) + n % 10) := by
            ring
        _ = a * 10 ^ ((natDigitsRev (n / 10)).length + 1) + n := by rw [h10, pow_succ]

/-- `new Date(text)` of the serialized form of an instant recovers it. -/
theorem timeOfIso_isoOfTime (n : Nat) : timeOfIso (isoOfTime n) = n := by
  simp only [timeOfIso, isoOfTime]
  have hdrop : List.drop 1 ('T' :: (natDigitsRev n).reverse) = (natDigitsRev n).reverse := rfl
  rw [hdrop, natDigitsRev_foldl n 0]
  simp

/-- The serialized form of an instant is a nonempty (hence truthy) string. -/
theorem isoOfTime_ne_empty (n : Nat) : isoOfTime n ≠ "" := by
  intro h
  exact List.cons_ne_nil _ _ (congrArg String.data h)

/-- Serialization followed by the `load` revival step restores every
timestamp of a task as a date value. -/
theorem reviveTask_serializeTask (t : Task) : reviveTask (serializeTask t) = rawOfTask t := by
  obtain ⟨i, a, inp, st, c, u, sa, co, er, dep, out⟩ := t
  cases sa <;> cases co <;>
    simp [reviveTask, serializeTask, rawOfTask, reviveTS, Option.map,
      isoOfTime_ne_empty, timeOfIso_isoOfTime]

/-- `rawOfTask` is inverted by the partial decoding back into `Task`. -/
theorem taskOfRaw_rawOfTask (t : Task) : taskOfRaw (rawOfTask t) = some t := by
  obtain ⟨i, a, inp, st, c, u, sa, co, er, dep, out⟩ := t
  cases sa <;> cases co <;> rfl

/-- `JSON.parse` plus revival undoes `JSON.stringify` up to turning every
date into a date value. -/
theorem reviveState_serializeState (s : WorkflowState) :
    reviveState (serializeState s) = rawOfState s := by
  have hmap : (s.tasks.map serializeTask).map reviveTask = s.tasks.map rawOfTask := by
    rw [List.map_map]
    exact List.map_congr_left (fun t _ => reviveTask_serializeTask t)
  simp [reviveState, serializeState, rawOfState, hmap]

/-- C9: `save(id, s)` followed by `load(id)` returns exactly the image of
`s` in which every one of the four timestamp fields of every task is a date
value, never its textual encoding, and decoding the stored tasks back into
in-memory tasks recovers `s.tasks`. -/
theorem claim9_theorem (store : List (String × RawState)) (id : String)
    (s : WorkflowState) :
    loadWf (saveWf store id s) id = some (rawOfState s) ∧
    (∀ rt ∈ (rawOfState s).tasks,
      (∃ c, rt.createdAt = TSVal.date c) ∧ (∃ u, rt.updatedAt = TSVal.date u) ∧
      (∀ v ∈ rt.startedAt, ∃ d, v = TSVal.date d) ∧
      (∀ v ∈ rt.completedAt, ∃ d, v = TSVal.date d)) ∧
    (rawOfState s).tasks.map taskOfRaw = s.tasks.map some := by
  refine ⟨?_, ?_, ?_⟩
  · have h1 : List.find? (fun kv => kv.1 == id) ((id, serializeState s) :: store) =
        some (id, serializeState s) :=
      List.find?_cons_of_pos _ (by simp)
    simp [loadWf, saveWf, h1, reviveState_serializeState]
  · intro rt hrt
    simp only [rawOfState, List.mem_map] at hrt
    obtain ⟨t, _, hteq⟩ := hrt
    subst hteq
    refine ⟨⟨t.createdAt, rfl⟩, ⟨t.updatedAt, rfl⟩, ?_, ?_⟩
    · intro v hv
      cases h : t.startedAt with
      | none => simp [rawOfTask, h] at hv
      | some d =>
        simp [rawOfTask, h] at hv
        exact ⟨d, hv.symm⟩
    · intro v hv
      cases h : t.completedAt with
      | none => simp [rawOfTask, h] at hv
      | some d =>
        simp [rawOfTask, h] at hv
        exact ⟨d, hv.symm⟩
  · rw [show (rawOfState s).tasks = s.tasks.map rawOfTask from rfl, List.map_map]
    exact List.map_congr_left (fun t _ => taskOfRaw_rawOfTask t)

end BoltWf
